import Mathlib

set_option linter.unusedVariables false

/-!
Shallow embedding of the vehicle-detection-system repository
(`roi_manager.py`, `vehicle_tracker.py`, `vehicle_detector.py`).

Conventions of the embedding:
* Python floats are modelled by `ℚ` (exact rational arithmetic) except where a
  square root is taken, which is modelled in `ℝ` via `Real.sqrt`.
* Python `int()` truncates toward zero; it is modelled by `pyInt`.
* Python dictionaries (insertion ordered) are modelled by association lists.
* Wall-clock timestamps (`datetime.now()`) are external input and are not part
  of the model; log records keep the remaining fields.
* A Python method that mutates `self` is modelled as a function from the state
  to the new state; a method that raises is modelled by returning the error
  message together with the unchanged state (the source raises before any
  mutation).
-/

/-- Python `int()` applied to a rational: truncation toward zero.
`Int.div` truncates toward zero and `q.den > 0`, so `q.num.div q.den`
is the integer part of `q` truncated toward zero. -/
def pyInt (q : ℚ) : ℤ := q.num.tdiv q.den

/-- Minimum of a list of integers (Python `min` over a nonempty list;
the `[]` case is unreachable in the source and defaults to `0`). -/
def listMin : List ℤ → ℤ
  | [] => 0
  | x :: xs => xs.foldl min x

/-- Maximum of a list of integers (Python `max` over a nonempty list). -/
def listMax : List ℤ → ℤ
  | [] => 0
  | x :: xs => xs.foldl max x

/-- One counting line, as stored in `ROIManager.counting_lines`:
`{'start': [...], 'end': [...], 'type': 'entry'|'exit'}`. -/
structure Line where
  lstart : ℤ × ℤ
  lend : ℤ × ℤ
  type : String
deriving DecidableEq, Repr

/-- Per-category counts `{'in': ..., 'out': ...}` in `vehicle_counts['by_type']`. -/
structure VCount where
  vin : ℕ
  vout : ℕ
deriving DecidableEq, Repr

/-- One crossing-log record built by `ROIManager._log_crossing`
(the wall-clock `timestamp` field is external and not modelled). -/
structure LogEntry where
  track_id : ℕ
  vehicle_type : String
  direction : String
  line_type : String
deriving DecidableEq, Repr

/-- The mutable state of `ROIManager` (`roi_polygon` is the same point list as
`roi_points` stored as a numpy array, so it is not duplicated here;
`direction_threshold` is only used by the unused `_check_line_crossing` path). -/
structure ROIState where
  roi_points : List (ℤ × ℤ)
  counting_lines : List Line
  total_in : ℕ
  total_out : ℕ
  by_type : List (String × VCount)
  crossed_vehicles : Finset ℕ
  entry_log : List LogEntry
  exit_log : List LogEntry
  line_threshold : ℚ
deriving DecidableEq

/-- `ROIManager.__init__`. -/
def initROI : ROIState :=
  { roi_points := [], counting_lines := [], total_in := 0, total_out := 0,
    by_type := [], crossed_vehicles := ∅, entry_log := [], exit_log := [],
    line_threshold := 100 }

/-- `ROIManager.reset_counts`. -/
def reset_counts (s : ROIState) : ROIState :=
  { s with
    total_in := 0, total_out := 0, by_type := [],
    crossed_vehicles := ∅, entry_log := [], exit_log := [] }

/-- The two horizontal counting lines `_generate_counting_lines` derives from a
point list: one 30 px above and one 30 px below the vertical center of the
bounding box, both spanning from the minimal to the maximal x coordinate. -/
def linesFor (pts : List (ℤ × ℤ)) : List Line :=
  let min_x := listMin (pts.map Prod.fst)
  let max_x := listMax (pts.map Prod.fst)
  let min_y := listMin (pts.map Prod.snd)
  let max_y := listMax (pts.map Prod.snd)
  let center_y : ℚ := ((min_y : ℚ) + (max_y : ℚ)) / 2
  let line1_y : ℚ := center_y - 30
  let line2_y : ℚ := center_y + 30
  [ { lstart := (min_x, pyInt line1_y), lend := (max_x, pyInt line1_y), type := "entry" },
    { lstart := (min_x, pyInt line2_y), lend := (max_x, pyInt line2_y), type := "exit" } ]

/-- `ROIManager._generate_counting_lines`: with fewer than 3 points it returns
without touching `counting_lines`, otherwise it overwrites them. -/
def generate_counting_lines (s : ROIState) : ROIState :=
  if s.roi_points.length < 3 then s
  else { s with counting_lines := linesFor s.roi_points }

/-- `ROIManager.set_roi`: with fewer than 3 points it raises `ValueError`
before any mutation (modelled by returning the message and the unchanged
state); otherwise it stores the points, calls `reset_counts` and then
`_generate_counting_lines`. -/
def set_roi (s : ROIState) (points : List (ℤ × ℤ)) : Option String × ROIState :=
  if points.length < 3 then
    (some "At least 3 points required for ROI polygon", s)
  else
    (none, generate_counting_lines (reset_counts { s with roi_points := points }))

/-- The line coefficients used by `ROIManager._point_to_line_distance`:
`A = end_y - start_y`, `B = start_x - end_x`, `C = end_x*start_y - start_x*end_y`. -/
def lineA (lstart lend : ℤ × ℤ) : ℤ := lend.2 - lstart.2

def lineB (lstart lend : ℤ × ℤ) : ℤ := lstart.1 - lend.1

def lineC (lstart lend : ℤ × ℤ) : ℤ := lend.1 * lstart.2 - lstart.1 * lend.2

/-- `ROIManager._point_to_line_distance`:
`|A*px + B*py + C| / sqrt(A^2 + B^2)` over the reals. -/
noncomputable def point_to_line_distance (p : ℚ × ℚ) (lstart lend : ℤ × ℤ) : ℝ :=
  |(lineA lstart lend : ℝ) * (p.1 : ℝ) + (lineB lstart lend : ℝ) * (p.2 : ℝ)
    + (lineC lstart lend : ℝ)| / Real.sqrt ((lineA lstart lend : ℝ) ^ 2 + (lineB lstart lend : ℝ) ^ 2)

/-- The Boolean test `distance < threshold` of the source, stated without the
square root so that it is executable: for a nondegenerate line both sides of
`|n|/sqrt(d) < t` are nonnegative, so the comparison is equivalent to
`n^2 < t^2 * d` (`distance_lt_iff` below proves this); for the degenerate line
`lstart = lend` the numerator and denominator are both `0`, numpy evaluates
`0/0` to NaN and any `<` comparison with NaN is false, matching the `n^2 < t^2 * 0`
comparison here, which is also false. -/
def distance_lt (p : ℚ × ℚ) (lstart lend : ℤ × ℤ) (t : ℚ) : Bool :=
  decide (((lineA lstart lend : ℚ) * p.1 + (lineB lstart lend : ℚ) * p.2
      + (lineC lstart lend : ℚ)) ^ 2
    < t ^ 2 * ((lineA lstart lend : ℚ) ^ 2 + (lineB lstart lend : ℚ) ^ 2))

/-- The per-entry update of `vehicle_counts['by_type'][vehicle_type]`:
increment `'in'` when the crossing direction is `'in'`, else `'out'`. -/
def bumpVC (vt : String) (dir : String) (p : String × VCount) : String × VCount :=
  if p.1 == vt then
    (p.1, if dir == "in" then { p.2 with vin := p.2.vin + 1 }
          else { p.2 with vout := p.2.vout + 1 })
  else p

/-- Update of `vehicle_counts['by_type']`: insert `{'in': 0, 'out': 0}` if the
category is absent, then increment the matching direction. -/
def updateByType (l : List (String × VCount)) (vt : String) (dir : String) :
    List (String × VCount) :=
  (if l.any (fun p => p.1 == vt) then l else l ++ [(vt, ⟨0, 0⟩)]).map (bumpVC vt dir)

/-- `ROIManager._log_crossing`: append the record to `entry_log` when the
direction is `'in'`, otherwise to `exit_log`. -/
def log_crossing (s : ROIState) (track_id : ℕ) (vehicle_type direction line_type : String) :
    ROIState :=
  let e : LogEntry :=
    { track_id := track_id, vehicle_type := vehicle_type,
      direction := direction, line_type := line_type }
  if direction == "in" then { s with entry_log := s.entry_log ++ [e] }
  else { s with exit_log := s.exit_log ++ [e] }

/-- The state updates performed inside the triggering branch of
`check_vehicle_crossing`: mark the vehicle as counted, update the total and
per-category counts, and log the crossing. -/
def applyCross (s : ROIState) (track_id : ℕ) (vehicle_type crossing_direction line_type : String) :
    ROIState :=
  let s1 := { s with crossed_vehicles := insert track_id s.crossed_vehicles }
  let s2 := if crossing_direction == "in" then { s1 with total_in := s1.total_in + 1 }
            else { s1 with total_out := s1.total_out + 1 }
  let s3 := { s2 with by_type := updateByType s2.by_type vehicle_type crossing_direction }
  log_crossing s3 track_id vehicle_type crossing_direction line_type

/-- The `for line in self.counting_lines` loop of `check_vehicle_crossing`:
the first line whose distance from the center is below the threshold triggers
the count and the early return. -/
def checkLines (s : ROIState) (track_id : ℕ) (center : ℚ × ℚ) (vehicle_type : String) :
    List Line → (Bool × Option String × Option String) × ROIState
  | [] => ((false, none, none), s)
  | l :: rest =>
    if distance_lt center l.lstart l.lend s.line_threshold then
      let crossing_direction := if l.type == "entry" then "in" else "out"
      let line_type := if l.type == "entry" then "entry" else "exit"
      ((true, some crossing_direction, some line_type),
        applyCross s track_id vehicle_type crossing_direction line_type)
    else checkLines s track_id center vehicle_type rest

/-- `ROIManager.check_vehicle_crossing` (the `direction` argument is accepted
as in the source, where it is never read). -/
def check_vehicle_crossing (s : ROIState) (track_id : ℕ) (center : ℚ × ℚ)
    (direction : ℚ × ℚ) (vehicle_type : String) :
    (Bool × Option String × Option String) × ROIState :=
  if s.counting_lines.isEmpty then ((false, none, none), s)
  else if track_id ∈ s.crossed_vehicles then ((false, none, none), s)
  else checkLines s track_id center vehicle_type s.counting_lines

/-- One `check_vehicle_crossing` call: track id, center, direction, category. -/
structure CrossCall where
  track_id : ℕ
  center : ℚ × ℚ
  direction : ℚ × ℚ
  vehicle_type : String
deriving DecidableEq, Repr

/-- Run a sequence of `check_vehicle_crossing` calls, threading the state. -/
def runChecks (s : ROIState) : List CrossCall → ROIState
  | [] => s
  | c :: rest =>
    runChecks (check_vehicle_crossing s c.track_id c.center c.direction c.vehicle_type).2 rest

/-- Number of ledger records (entry log plus exit log) for one track identity. -/
def ledgerCount (s : ROIState) (tid : ℕ) : ℕ :=
  (s.entry_log ++ s.exit_log).countP (fun e => e.track_id == tid)

/-- The public `ROIManager` operations a caller can interleave. -/
inductive ROIOp where
  | setRoi (points : List (ℤ × ℤ))
  | check (c : CrossCall)
  | reset
deriving DecidableEq, Repr

/-- Apply one `ROIManager` operation to the state. -/
def stepROI (s : ROIState) : ROIOp → ROIState
  | ROIOp.setRoi pts => (set_roi s pts).2
  | ROIOp.check c => (check_vehicle_crossing s c.track_id c.center c.direction c.vehicle_type).2
  | ROIOp.reset => reset_counts s

/-- Run a sequence of `ROIManager` operations from a given state. -/
def runROI (s : ROIState) : List ROIOp → ROIState
  | [] => s
  | op :: rest => runROI (stepROI s op) rest

/-- The ledger-consistency invariant of the `ROIManager` counters:
the totals agree with the per-category sums and the log lengths, the counted
set's size is the total number of counted crossings, and every log record
carries the direction and boundary label of the log it sits in. -/
def ledger_ok (s : ROIState) : Prop :=
  s.total_in = (s.by_type.map (fun p => p.2.vin)).sum ∧
  s.total_out = (s.by_type.map (fun p => p.2.vout)).sum ∧
  s.total_in = s.entry_log.length ∧
  s.total_out = s.exit_log.length ∧
  s.total_in + s.total_out = s.crossed_vehicles.card ∧
  (∀ e ∈ s.entry_log, e.direction = "in" ∧ e.line_type = "entry") ∧
  (∀ e ∈ s.exit_log, e.direction = "out" ∧ e.line_type = "exit")

/-! ## Detector (`vehicle_detector.py`) and tracker (`vehicle_tracker.py`) -/

/-- A bounding box `[x1, y1, x2, y2]` in integer pixel coordinates. -/
structure BBox where
  x1 : ℤ
  y1 : ℤ
  x2 : ℤ
  y2 : ℤ
deriving DecidableEq, Repr

/-- A detection as produced by `VehicleDetector.detect_vehicles`. -/
structure Detection where
  bbox : BBox
  confidence : ℚ
  class_name : String
deriving DecidableEq, Repr

/-- `VehicleDetector.filter_detections_by_size`: keep a detection iff
`(x2 - x1) * (y2 - y1) >= min_area`. -/
def filter_detections_by_size (dets : List Detection) (min_area : ℚ) : List Detection :=
  dets.filter (fun d =>
    decide ((((d.bbox.x2 - d.bbox.x1) * (d.bbox.y2 - d.bbox.y1) : ℤ) : ℚ) ≥ min_area))

/-- `VehicleTracker._calculate_iou`: intersection area over union area,
`0.0` when the computed intersection is empty or the union is not positive. -/
def calculate_iou (bbox1 bbox2 : BBox) : ℚ :=
  let x1_i := max bbox1.x1 bbox2.x1
  let y1_i := max bbox1.y1 bbox2.y1
  let x2_i := min bbox1.x2 bbox2.x2
  let y2_i := min bbox1.y2 bbox2.y2
  if x2_i ≤ x1_i ∨ y2_i ≤ y1_i then 0
  else
    let intersection := (x2_i - x1_i) * (y2_i - y1_i)
    let area1 := (bbox1.x2 - bbox1.x1) * (bbox1.y2 - bbox1.y1)
    let area2 := (bbox2.x2 - bbox2.x1) * (bbox2.y2 - bbox2.y1)
    let union := area1 + area2 - intersection
    if 0 < union then (intersection : ℚ) / (union : ℚ) else 0

/-- A detection in the tracker's internal format (`current_detections` in
`update_tracks`), with the derived center point. -/
structure CurDet where
  bbox : BBox
  confidence : ℚ
  class_name : String
  center : ℚ × ℚ
deriving DecidableEq, Repr

/-- The conversion loop at the top of `update_tracks`:
`center = ((x1 + x2) / 2, (y1 + y2) / 2)`. -/
def toCur (d : Detection) : CurDet :=
  { bbox := d.bbox, confidence := d.confidence, class_name := d.class_name,
    center := (((d.bbox.x1 + d.bbox.x2 : ℤ) : ℚ) / 2, ((d.bbox.y1 + d.bbox.y2 : ℤ) : ℚ) / 2) }

/-- The per-track record stored in `self.tracks[track_id]`. -/
structure TrackData where
  bbox : BBox
  confidence : ℚ
  class_name : String
  center : ℚ × ℚ
  hits : ℕ
  age : ℕ
deriving DecidableEq, Repr

/-- One entry of `self.track_history[track_id]` (the source stores
`timestamp = self.frame_count`, duplicating `frame`). -/
structure HistEntry where
  frame : ℕ
  center : ℚ × ℚ
  bbox : BBox
  confidence : ℚ
  class_name : String
  timestamp : ℕ
deriving DecidableEq, Repr

/-- The mutable state of `VehicleTracker`. Python dictionaries preserve
insertion order, so `tracks` and `track_history` are association lists
(`speed_history` is only touched by `cleanup_old_tracks`, which no claim
concerns, and is omitted). -/
structure TrackerState where
  max_age : ℕ
  n_init : ℕ
  max_iou_distance : ℚ
  tracks : List (ℕ × TrackData)
  next_id : ℕ
  track_history : List (ℕ × List HistEntry)
  frame_count : ℕ
deriving DecidableEq, Repr

/-- `VehicleTracker.__init__` with the default parameters
(`max_age=30`, `n_init=3`, `max_iou_distance=0.7`). -/
def initTracker : TrackerState :=
  { max_age := 30, n_init := 3, max_iou_distance := 7/10,
    tracks := [], next_id := 1, track_history := [], frame_count := 0 }

/-- `np.argmax` over one matrix row: index of the first maximal element
(`0` on the empty row, which the source never queries). -/
def argmaxAux : List ℚ → ℕ → ℕ → ℚ → ℕ
  | [], _, bi, _ => bi
  | x :: xs, i, bi, bv => if bv < x then argmaxAux xs (i + 1) i x else argmaxAux xs (i + 1) bi bv

def argmaxIdx : List ℚ → ℕ
  | [] => 0
  | x :: xs => argmaxAux xs 1 0 x

/-- The value `row[argmax(row)]`. -/
def argmaxVal (row : List ℚ) : ℚ := row.getD (argmaxIdx row) 0

/-- `VehicleTracker._calculate_iou_matrix`: empty when there are no tracks or
no detections, otherwise one row per track in insertion order. -/
def iouRows (tracks : List (ℕ × TrackData)) (dets : List CurDet) : List (List ℚ) :=
  if tracks.isEmpty || dets.isEmpty then []
  else tracks.map (fun p => dets.map (fun d => calculate_iou p.2.bbox d.bbox))

/-- `VehicleTracker._associate_tracks`: greedy, in track-row order; row `i`
claims the first-maximal column `j` iff `iou[i, j] > max_iou_distance` and `j`
is not already claimed by an earlier row. -/
def associateAux (thr : ℚ) : List (List ℚ) → ℕ → List ℕ → List (ℕ × ℕ)
  | [], _, _ => []
  | row :: rest, i, used =>
    let j := argmaxIdx row
    if thr < argmaxVal row ∧ j ∉ used then
      (i, j) :: associateAux thr rest (i + 1) (j :: used)
    else associateAux thr rest (i + 1) used

def associate (rows : List (List ℚ)) (thr : ℚ) : List (ℕ × ℕ) :=
  associateAux thr rows 0 []

/-- Track identities matched (successfully associated) when `update_tracks`
is applied to the given state and detection list. -/
def matchedIds (s : TrackerState) (dets : List CurDet) : List ℕ :=
  (associate (iouRows s.tracks dets) s.max_iou_distance).filterMap
    (fun ij => (s.tracks[ij.1]?).map Prod.fst)

/-- The history-trimming step `if len > 30: keep the last 30`. -/
def trimHist (l : List HistEntry) : List HistEntry :=
  if 30 < l.length then l.drop (l.length - 30) else l

/-- The history entry appended on a successful association. -/
def mkHistEntry (fc : ℕ) (d : CurDet) : HistEntry :=
  { frame := fc, center := d.center, bbox := d.bbox,
    confidence := d.confidence, class_name := d.class_name, timestamp := fc }

/-- Append one history entry for a track id, creating the (empty) history
first when the id is absent, then trimming to the last 30 entries. -/
def histAppend (h : List (ℕ × List HistEntry)) (tid : ℕ) (e : HistEntry) :
    List (ℕ × List HistEntry) :=
  if h.any (fun p => p.1 == tid) then
    h.map (fun p => if p.1 == tid then (p.1, trimHist (p.2 ++ [e])) else p)
  else h ++ [(tid, trimHist [e])]

/-- Positional update of the track list: entry at index `i` becomes
`(id, g i data)`; identities are untouched. -/
def updTracksAux (g : ℕ → TrackData → TrackData) : ℕ → List (ℕ × TrackData) → List (ℕ × TrackData)
  | _, [] => []
  | i, p :: rest => (p.1, g i p.2) :: updTracksAux g (i + 1) rest

/-- How `_update_existing_tracks` rewrites the track at row `i`: a matched row
takes the associated detection's fields with `hits + 1` and `age = 0`; an
unmatched row ages by one. -/
def matchUpd (ms : List (ℕ × ℕ)) (dets : List CurDet) (i : ℕ) (t : TrackData) : TrackData :=
  match ms.find? (fun p => p.1 == i) with
  | some ij =>
    match dets[ij.2]? with
    | some d =>
      { bbox := d.bbox, confidence := d.confidence, class_name := d.class_name,
        center := d.center, hits := t.hits + 1, age := 0 }
    | none => t
  | none => { t with age := t.age + 1 }

/-- `VehicleTracker._update_existing_tracks`. -/
def updateExisting (s : TrackerState) (dets : List CurDet) : TrackerState :=
  let ms := associate (iouRows s.tracks dets) s.max_iou_distance
  let tracks2 := updTracksAux (matchUpd ms dets) 0 s.tracks
  let hist2 := ms.foldl (fun h ij =>
    match s.tracks[ij.1]?, dets[ij.2]? with
    | some p, some d => histAppend h p.1 (mkHistEntry s.frame_count d)
    | _, _ => h) s.track_history
  { s with tracks := tracks2, track_history := hist2 }

/-- The `matched_detections` set computed inside `_create_new_tracks`
(recomputed on the already-updated tracks; only membership matters). -/
def matchedDetIdxs (tracks : List (ℕ × TrackData)) (dets : List CurDet) (thr : ℚ) : List ℕ :=
  (iouRows tracks dets).foldl
    (fun acc row => if thr < argmaxVal row then argmaxIdx row :: acc else acc) []

/-- A freshly created track: `hits = 1`, `age = 0`. -/
def newTrack (d : CurDet) : TrackData :=
  { bbox := d.bbox, confidence := d.confidence, class_name := d.class_name,
    center := d.center, hits := 1, age := 0 }

/-- The creation loop of `_create_new_tracks`: every detection index not in
the matched set spawns a track with identity `next_id`, which is then
incremented. -/
def createNewAux (matched : List ℕ) : List CurDet → ℕ → TrackerState → TrackerState
  | [], _, st => st
  | d :: rest, i, st =>
    if i ∈ matched then createNewAux matched rest (i + 1) st
    else
      createNewAux matched rest (i + 1)
        { st with tracks := st.tracks ++ [(st.next_id, newTrack d)], next_id := st.next_id + 1 }

/-- `VehicleTracker._create_new_tracks`. -/
def createNew (s : TrackerState) (dets : List CurDet) : TrackerState :=
  createNewAux (matchedDetIdxs s.tracks dets s.max_iou_distance) dets 0 s

/-- `VehicleTracker._remove_old_tracks`: drop every track with
`age > max_age` and delete its history. -/
def removeOld (s : TrackerState) : TrackerState :=
  { s with
    tracks := s.tracks.filter (fun p => decide (p.2.age ≤ s.max_age)),
    track_history := s.track_history.filter (fun p =>
      !(s.tracks.any (fun q => q.1 == p.1 && decide (s.max_age < q.2.age)))) }

/-- One element of the `active_tracks` list returned by `update_tracks`. -/
structure ActiveTrack where
  track_id : ℕ
  bbox : BBox
  confidence : ℚ
  class_name : String
  center : ℚ × ℚ
deriving DecidableEq, Repr

/-- The final loop of `update_tracks`: report tracks with `age < max_age` and
`hits >= n_init`. -/
def activeOf (s : TrackerState) : List ActiveTrack :=
  s.tracks.filterMap (fun p =>
    if p.2.age < s.max_age ∧ s.n_init ≤ p.2.hits then
      some { track_id := p.1, bbox := p.2.bbox, confidence := p.2.confidence,
             class_name := p.2.class_name, center := p.2.center }
    else none)

/-- `VehicleTracker.update_tracks`: bump the frame counter, convert the
detections, update existing tracks, create new ones, remove old ones, and
report the active tracks of the resulting state. -/
def update_tracks (s : TrackerState) (dets : List Detection) : TrackerState × List ActiveTrack :=
  let s0 := { s with frame_count := s.frame_count + 1 }
  let cur := dets.map toCur
  let s1 := updateExisting s0 cur
  let s2 := createNew s1 cur
  let s3 := removeOld s2
  (s3, activeOf s3)

/-- Run `update_tracks` over a sequence of frames, collecting the returned
`active_tracks` list of every frame. -/
def runUpdates (s : TrackerState) : List (List Detection) → TrackerState × List (List ActiveTrack)
  | [] => (s, [])
  | d :: rest =>
    let r := update_tracks s d
    let r2 := runUpdates r.1 rest
    (r2.1, r.2 :: r2.2)

/-- `tid` is never successfully associated at any step of the frame sequence. -/
def neverMatched : TrackerState → List (List Detection) → ℕ → Bool
  | _, [], _ => true
  | s, d :: rest, tid =>
    decide (tid ∉ matchedIds s (d.map toCur)) && neverMatched (update_tracks s d).1 rest tid

def trackIds (s : TrackerState) : List ℕ := s.tracks.map Prod.fst

def historyIds (s : TrackerState) : List ℕ := s.track_history.map Prod.fst

/-- State well-formedness that the Python dict guarantees: track identities
are pairwise distinct and below `next_id`. -/
def validIds (s : TrackerState) : Prop :=
  (trackIds s).Nodup ∧ ∀ p ∈ s.tracks, p.1 < s.next_id

/-- The averaged frame-to-frame displacement over the last (up to 3) history
entries, as computed by `get_track_direction` before normalization. -/
def avgDisp (history : List HistEntry) : ℚ × ℚ :=
  let recent := history.drop (history.length - 3)
  let diffs := recent.zip recent.tail
  let dx_total := (diffs.map (fun pc => pc.2.center.1 - pc.1.center.1)).sum
  let dy_total := (diffs.map (fun pc => pc.2.center.2 - pc.1.center.2)).sum
  (dx_total / ((recent.length - 1 : ℕ) : ℚ), dy_total / ((recent.length - 1 : ℕ) : ℚ))

open Classical in
/-- `VehicleTracker.get_track_direction`: `None` when the track has no
history, fewer than 2 history entries, or zero averaged magnitude; otherwise
the averaged displacement scaled to a unit vector. -/
noncomputable def get_track_direction (s : TrackerState) (tid : ℕ) : Option (ℝ × ℝ) :=
  match s.track_history.find? (fun p => p.1 == tid) with
  | none => none
  | some p =>
    if p.2.length < 2 then none
    else
      let recent := p.2.drop (p.2.length - 3)
      if recent.length < 2 then none
      else
        let d := avgDisp p.2
        let magnitude : ℝ := Real.sqrt ((d.1 : ℝ) ^ 2 + (d.2 : ℝ) ^ 2)
        if 0 < magnitude then some ((d.1 : ℝ) / magnitude, (d.2 : ℝ) / magnitude)
        else none

/-- The history list of a track id (`[]` when the id is absent, matching the
source's `track_id not in self.track_history` check, since an absent id and an
empty history behave identically there). -/
def historyOf (s : TrackerState) (tid : ℕ) : List HistEntry :=
  ((s.track_history.find? (fun p => p.1 == tid)).map Prod.snd).getD []

/-! ## Concrete fixtures shared by witness theorems -/

/-- The unit-square counting region of the spec's boundary-geometry property. -/
def sqPts : List (ℤ × ℤ) := [(0,0),(100,0),(100,100),(0,100)]

/-- The ROI state after `set_roi` with `sqPts` from a fresh manager. -/
def sqROI : ROIState := (set_roi initROI sqPts).2

/-- A well-formed sample detection. -/
def sampleDet : Detection :=
  { bbox := { x1 := 0, y1 := 0, x2 := 10, y2 := 10 }, confidence := 1, class_name := "car" }

/-- A malformed detection whose two axes are both inverted. -/
def invDet : Detection :=
  { bbox := { x1 := 100, y1 := 100, x2 := 0, y2 := 0 }, confidence := 1, class_name := "car" }

/-- Evaluation of Python `int()` on an integer-valued rational. -/
theorem pyInt_intCast (n : ℤ) : pyInt ((n : ℤ) : ℚ) = n := by
  simp [pyInt]

/-- The counting lines generated for the unit-square region. -/
theorem sqROI_counting_lines :
    sqROI.counting_lines =
      [{ lstart := (0, 20), lend := (100, 20), type := "entry" },
       { lstart := (0, 80), lend := (100, 80), type := "exit" }] := by
  norm_num [sqROI, set_roi, sqPts, initROI, generate_counting_lines, reset_counts,
    linesFor, listMin, listMax, pyInt]

/-! ## Claims -/

/-- C8. Boundary geometry: after `set_roi` with
`[(0,0),(100,0),(100,100),(0,100)]` exactly two counting boundaries exist
(entry from `(0,20)` to `(100,20)`, exit from `(0,80)` to `(100,80)`); the
entry boundary is a horizontal segment strictly above the exit boundary, and
both span the polygon's full horizontal extent from `x = 0` (the minimal
polygon x) to `x = 100` (the maximal polygon x). -/
theorem boundary_geometry_square :
    (set_roi initROI sqPts).2.counting_lines =
      [{ lstart := (0, 20), lend := (100, 20), type := "entry" },
       { lstart := (0, 80), lend := (100, 80), type := "exit" }] ∧
    (set_roi initROI sqPts).2.counting_lines.length = 2 ∧
    ((set_roi initROI sqPts).2.counting_lines.map Line.type = ["entry", "exit"]) ∧
    (∀ l ∈ (set_roi initROI sqPts).2.counting_lines,
      l.lstart.2 = l.lend.2 ∧ l.lstart.1 = listMin (sqPts.map Prod.fst) ∧
      l.lend.1 = listMax (sqPts.map Prod.fst)) ∧
    (∀ l1 ∈ (set_roi initROI sqPts).2.counting_lines,
      ∀ l2 ∈ (set_roi initROI sqPts).2.counting_lines,
      l1.type = "entry" → l2.type = "exit" → l1.lstart.2 < l2.lstart.2) := by
  have h : (set_roi initROI sqPts).2.counting_lines =
      [{ lstart := (0, 20), lend := (100, 20), type := "entry" },
       { lstart := (0, 80), lend := (100, 80), type := "exit" }] := sqROI_counting_lines
  refine ⟨h, ?_, ?_, ?_, ?_⟩ <;> rw [h] <;> decide

/-- C4 counterexample. The claim states that every malformed box
(`x2 ≤ x1` or `y2 ≤ y1`) is treated as zero area and dropped for any
`min_area > 0`; but `invDet` has `x2 = 0 ≤ 100 = x1` and is kept by
`filter_detections_by_size` with `min_area = 1000 > 0`, because its computed
area `(0-100)*(0-100) = 10000` is positive. -/
theorem filter_malformed_kept_counterexample :
    filter_detections_by_size [invDet] 1000 = [invDet] ∧
    invDet.bbox.x2 ≤ invDet.bbox.x1 ∧ (0 : ℚ) < 1000 := by
  decide

/-- C4 amended. `filter_detections_by_size` keeps exactly the detections whose
computed area `(x2-x1)*(y2-y1)` is at least `min_area`, and never raises. A
malformed box is dropped (for `min_area > 0`) whenever at least one of its
axes is non-inverted — its computed area is then nonpositive — but a box with
both axes inverted has positive computed area and is kept when that area
reaches `min_area`. -/
theorem filter_by_size_amended (dets : List Detection) (m : ℚ) :
    (∀ d : Detection, d ∈ filter_detections_by_size dets m ↔
        d ∈ dets ∧ m ≤ (((d.bbox.x2 - d.bbox.x1) * (d.bbox.y2 - d.bbox.y1) : ℤ) : ℚ)) ∧
    (0 < m → ∀ d ∈ dets,
        ((d.bbox.x2 ≤ d.bbox.x1 ∧ d.bbox.y1 ≤ d.bbox.y2) ∨
         (d.bbox.y2 ≤ d.bbox.y1 ∧ d.bbox.x1 ≤ d.bbox.x2)) →
        d ∉ filter_detections_by_size dets m) := by
  have hmemiff : ∀ d : Detection, d ∈ filter_detections_by_size dets m ↔
      d ∈ dets ∧ m ≤ (((d.bbox.x2 - d.bbox.x1) * (d.bbox.y2 - d.bbox.y1) : ℤ) : ℚ) := by
    intro d
    simp only [filter_detections_by_size, List.mem_filter, decide_eq_true_eq, ge_iff_le]
  refine ⟨hmemiff, ?_⟩
  rintro hm d hd hbad hmem
  have h1 := ((hmemiff d).mp hmem).2
  have h2 : ((d.bbox.x2 - d.bbox.x1) * (d.bbox.y2 - d.bbox.y1) : ℤ) ≤ 0 := by
    rcases hbad with ⟨hx, hy⟩ | ⟨hy, hx⟩
    · exact mul_nonpos_iff.mpr (Or.inr ⟨by omega, by omega⟩)
    · exact mul_nonpos_iff.mpr (Or.inl ⟨by omega, by omega⟩)
  have h3 : (((d.bbox.x2 - d.bbox.x1) * (d.bbox.y2 - d.bbox.y1) : ℤ) : ℚ) ≤ 0 := by
    exact_mod_cast h2
  linarith

/-- Witness for `filter_by_size_amended` at a concrete detection list. -/
theorem filter_by_size_amended_witness :
    (∀ d : Detection, d ∈ filter_detections_by_size [sampleDet] 1000 ↔
        d ∈ [sampleDet] ∧
        (1000 : ℚ) ≤ (((d.bbox.x2 - d.bbox.x1) * (d.bbox.y2 - d.bbox.y1) : ℤ) : ℚ)) ∧
    ((0 : ℚ) < 1000 → ∀ d ∈ [sampleDet],
        ((d.bbox.x2 ≤ d.bbox.x1 ∧ d.bbox.y1 ≤ d.bbox.y2) ∨
         (d.bbox.y2 ≤ d.bbox.y1 ∧ d.bbox.x1 ≤ d.bbox.x2)) →
        d ∉ filter_detections_by_size [sampleDet] 1000) :=
  filter_by_size_amended [sampleDet] 1000

/-- C5. `set_roi` with fewer than 3 points rejects with the validation error
and leaves the state unchanged; with 3 or more points it succeeds and — from
any prior state — zeroes `total_in` and `total_out`, clears the per-category
count table (so every per-category sub-count is zero), the counted set and
both event logs, stores the new polygon and regenerates the two counting
boundaries from it. -/
theorem set_roi_reset_spec (s : ROIState) (pts : List (ℤ × ℤ)) :
    (pts.length < 3 →
      set_roi s pts = (some "At least 3 points required for ROI polygon", s)) ∧
    (3 ≤ pts.length →
      (set_roi s pts).1 = none ∧
      (set_roi s pts).2.total_in = 0 ∧
      (set_roi s pts).2.total_out = 0 ∧
      (set_roi s pts).2.by_type = [] ∧
      (set_roi s pts).2.crossed_vehicles = ∅ ∧
      (set_roi s pts).2.entry_log = [] ∧
      (set_roi s pts).2.exit_log = [] ∧
      (set_roi s pts).2.roi_points = pts ∧
      (set_roi s pts).2.counting_lines = linesFor pts) := by
  constructor
  · intro h
    simp [set_roi, h]
  · intro h
    have h2 : ¬ pts.length < 3 := by omega
    simp [set_roi, h2, generate_counting_lines, reset_counts]

/-- Witness for `set_roi_reset_spec` at the initial state and the square
polygon. -/
theorem set_roi_reset_spec_witness :
    (sqPts.length < 3 →
      set_roi initROI sqPts = (some "At least 3 points required for ROI polygon", initROI)) ∧
    (3 ≤ sqPts.length →
      (set_roi initROI sqPts).1 = none ∧
      (set_roi initROI sqPts).2.total_in = 0 ∧
      (set_roi initROI sqPts).2.total_out = 0 ∧
      (set_roi initROI sqPts).2.by_type = [] ∧
      (set_roi initROI sqPts).2.crossed_vehicles = ∅ ∧
      (set_roi initROI sqPts).2.entry_log = [] ∧
      (set_roi initROI sqPts).2.exit_log = [] ∧
      (set_roi initROI sqPts).2.roi_points = sqPts ∧
      (set_roi initROI sqPts).2.counting_lines = linesFor sqPts) :=
  set_roi_reset_spec initROI sqPts

/-- The open interior of a bounding box, as a set of rational points. -/
def boxInterior (b : BBox) : Set (ℚ × ℚ) :=
  {p | (b.x1 : ℚ) < p.1 ∧ p.1 < (b.x2 : ℚ) ∧ (b.y1 : ℚ) < p.2 ∧ p.2 < (b.y2 : ℚ)}

/-- Unit-square box fixture. -/
def boxU : BBox := { x1 := 0, y1 := 0, x2 := 1, y2 := 1 }

/-- A box disjoint from `boxU`. -/
def boxV : BBox := { x1 := 5, y1 := 5, x2 := 6, y2 := 6 }

/-- C7. IoU correctness: for every well-formed box `b`, `IoU(b, b) = 1`;
for any two boxes whose interiors are disjoint, `IoU = 0`; and IoU is
symmetric. -/
theorem iou_correct :
    (∀ b : BBox, b.x1 < b.x2 → b.y1 < b.y2 → calculate_iou b b = 1) ∧
    (∀ a b : BBox, Disjoint (boxInterior a) (boxInterior b) → calculate_iou a b = 0) ∧
    (∀ a b : BBox, calculate_iou a b = calculate_iou b a) := by
  refine ⟨?_, ?_, ?_⟩
  · intro b hx hy
    have hA : 0 < (b.x2 - b.x1) * (b.y2 - b.y1) := mul_pos (by omega) (by omega)
    simp only [calculate_iou, max_self, min_self]
    rw [if_neg (by omega)]
    have hsimp : (b.x2 - b.x1) * (b.y2 - b.y1) + (b.x2 - b.x1) * (b.y2 - b.y1)
        - (b.x2 - b.x1) * (b.y2 - b.y1) = (b.x2 - b.x1) * (b.y2 - b.y1) := by ring
    rw [hsimp, if_pos hA, div_self]
    exact Int.cast_ne_zero.mpr (ne_of_gt hA)
  · intro a b hdis
    by_cases hguard : min a.x2 b.x2 ≤ max a.x1 b.x1 ∨ min a.y2 b.y2 ≤ max a.y1 b.y1
    · simp only [calculate_iou]
      rw [if_pos hguard]
    · exfalso
      push_neg at hguard
      obtain ⟨h1, h2⟩ := hguard
      set mx : ℚ := (((max a.x1 b.x1 : ℤ) : ℚ) + ((min a.x2 b.x2 : ℤ) : ℚ)) / 2 with hmx
      set my : ℚ := (((max a.y1 b.y1 : ℤ) : ℚ) + ((min a.y2 b.y2 : ℤ) : ℚ)) / 2 with hmy
      have hcx : ((max a.x1 b.x1 : ℤ) : ℚ) < ((min a.x2 b.x2 : ℤ) : ℚ) := Int.cast_lt.mpr h1
      have hcy : ((max a.y1 b.y1 : ℤ) : ℚ) < ((min a.y2 b.y2 : ℤ) : ℚ) := Int.cast_lt.mpr h2
      have hmx1 : ((max a.x1 b.x1 : ℤ) : ℚ) < mx := by rw [hmx]; linarith
      have hmx2 : mx < ((min a.x2 b.x2 : ℤ) : ℚ) := by rw [hmx]; linarith
      have hmy1 : ((max a.y1 b.y1 : ℤ) : ℚ) < my := by rw [hmy]; linarith
      have hmy2 : my < ((min a.y2 b.y2 : ℤ) : ℚ) := by rw [hmy]; linarith
      have hma : (mx, my) ∈ boxInterior a := by
        refine ⟨?_, ?_, ?_, ?_⟩
        · exact lt_of_le_of_lt (Int.cast_le.mpr (le_max_left _ _)) hmx1
        · exact lt_of_lt_of_le hmx2 (Int.cast_le.mpr (min_le_left _ _))
        · exact lt_of_le_of_lt (Int.cast_le.mpr (le_max_left _ _)) hmy1
        · exact lt_of_lt_of_le hmy2 (Int.cast_le.mpr (min_le_left _ _))
      have hmb : (mx, my) ∈ boxInterior b := by
        refine ⟨?_, ?_, ?_, ?_⟩
        · exact lt_of_le_of_lt (Int.cast_le.mpr (le_max_right _ _)) hmx1
        · exact lt_of_lt_of_le hmx2 (Int.cast_le.mpr (min_le_right _ _))
        · exact lt_of_le_of_lt (Int.cast_le.mpr (le_max_right _ _)) hmy1
        · exact lt_of_lt_of_le hmy2 (Int.cast_le.mpr (min_le_right _ _))
      exact Set.disjoint_left.mp hdis hma hmb
  · intro a b
    simp only [calculate_iou]
    rw [max_comm b.x1 a.x1, max_comm b.y1 a.y1, min_comm b.x2 a.x2, min_comm b.y2 a.y2,
      add_comm ((b.x2 - b.x1) * (b.y2 - b.y1)) ((a.x2 - a.x1) * (a.y2 - a.y1))]

/-- Witness for `iou_correct` at concrete boxes. -/
theorem iou_correct_witness :
    calculate_iou boxU boxU = 1 ∧ calculate_iou boxU boxV = 0 ∧
    calculate_iou boxU boxV = calculate_iou boxV boxU := by
  refine ⟨iou_correct.1 boxU (by decide) (by decide), iou_correct.2.1 boxU boxV ?_,
    iou_correct.2.2 boxU boxV⟩
  rw [Set.disjoint_left]
  rintro ⟨px, py⟩ ⟨h1, h2, h3, h4⟩ ⟨g1, g2, g3, g4⟩
  simp only [boxU, boxV] at h1 h2 h3 h4 g1 g2 g3 g4
  push_cast at h1 h2 h3 h4 g1 g2 g3 g4
  linarith

/-! ## Case analysis of `check_vehicle_crossing` -/

/-- The crossing loop either leaves the state unchanged and reports no
crossing, or reports an entry crossing (`in`/`entry`) or an exit crossing
(`out`/`exit`) with the corresponding counting updates applied. -/
theorem checkLines_cases (s : ROIState) (tid : ℕ) (c : ℚ × ℚ) (vt : String) (ls : List Line) :
    checkLines s tid c vt ls = ((false, none, none), s) ∨
    checkLines s tid c vt ls = ((true, some "in", some "entry"), applyCross s tid vt "in" "entry") ∨
    checkLines s tid c vt ls =
      ((true, some "out", some "exit"), applyCross s tid vt "out" "exit") := by
  induction ls with
  | nil => exact Or.inl rfl
  | cons l rest ih =>
    by_cases hd : distance_lt c l.lstart l.lend s.line_threshold = true
    · by_cases ht : (l.type == "entry") = true
      · exact Or.inr (Or.inl (by simp [checkLines, hd, ht]))
      · exact Or.inr (Or.inr (by simp [checkLines, hd, ht]))
    · simpa [checkLines, hd] using ih

/-- `check_vehicle_crossing` either returns `(False, None, None)` with the
state unchanged, or — only when the track is not yet counted — applies the
entry or exit counting updates. -/
theorem check_cases (s : ROIState) (tid : ℕ) (c d : ℚ × ℚ) (vt : String) :
    check_vehicle_crossing s tid c d vt = ((false, none, none), s) ∨
    (tid ∉ s.crossed_vehicles ∧
      (check_vehicle_crossing s tid c d vt =
          ((true, some "in", some "entry"), applyCross s tid vt "in" "entry") ∨
       check_vehicle_crossing s tid c d vt =
          ((true, some "out", some "exit"), applyCross s tid vt "out" "exit"))) := by
  by_cases he : s.counting_lines.isEmpty
  · exact Or.inl (by simp [check_vehicle_crossing, he])
  · by_cases hm : tid ∈ s.crossed_vehicles
    · exact Or.inl (by simp [check_vehicle_crossing, he, hm])
    · rcases checkLines_cases s tid c vt s.counting_lines with h | h | h
      · exact Or.inl (by simp [check_vehicle_crossing, he, hm, h])
      · exact Or.inr ⟨hm, Or.inl (by simp [check_vehicle_crossing, he, hm, h])⟩
      · exact Or.inr ⟨hm, Or.inr (by simp [check_vehicle_crossing, he, hm, h])⟩

/-- Explicit form of the entry-crossing update. -/
theorem applyCross_in (s : ROIState) (tid : ℕ) (vt : String) :
    applyCross s tid vt "in" "entry" =
      { s with
        crossed_vehicles := insert tid s.crossed_vehicles,
        total_in := s.total_in + 1,
        by_type := updateByType s.by_type vt "in",
        entry_log := s.entry_log ++
          [{ track_id := tid, vehicle_type := vt, direction := "in", line_type := "entry" }] } := by
  rfl

/-- Explicit form of the exit-crossing update. -/
theorem applyCross_out (s : ROIState) (tid : ℕ) (vt : String) :
    applyCross s tid vt "out" "exit" =
      { s with
        crossed_vehicles := insert tid s.crossed_vehicles,
        total_out := s.total_out + 1,
        by_type := updateByType s.by_type vt "out",
        exit_log := s.exit_log ++
          [{ track_id := tid, vehicle_type := vt, direction := "out", line_type := "exit" }] } := by
  rfl

/-- The at-most-once bookkeeping invariant: a track id has a ledger record
only if it is in the counted set, and never more than one. -/
def ledgerInv (s : ROIState) : Prop :=
  ∀ t : ℕ, ledgerCount s t ≤ if t ∈ s.crossed_vehicles then 1 else 0


theorem ledgerCount_applyCross_in (s : ROIState) (tid : ℕ) (vt : String) (t : ℕ) :
    ledgerCount (applyCross s tid vt "in" "entry") t =
      ledgerCount s t + (if tid = t then 1 else 0) := by
  rw [applyCross_in]
  simp only [ledgerCount, List.countP_append, List.countP_cons, List.countP_nil]
  by_cases h : tid = t
  · simp [h]
    omega
  · simp [h]

theorem ledgerCount_applyCross_out (s : ROIState) (tid : ℕ) (vt : String) (t : ℕ) :
    ledgerCount (applyCross s tid vt "out" "exit") t =
      ledgerCount s t + (if tid = t then 1 else 0) := by
  rw [applyCross_out]
  simp only [ledgerCount, List.countP_append, List.countP_cons, List.countP_nil]
  by_cases h : tid = t
  · simp [h]
    omega
  · simp [h]

/-- One `check_vehicle_crossing` call preserves the at-most-once invariant. -/
theorem ledgerInv_check (s : ROIState) (c : CrossCall) (h : ledgerInv s) :
    ledgerInv (check_vehicle_crossing s c.track_id c.center c.direction c.vehicle_type).2 := by
  rcases check_cases s c.track_id c.center c.direction c.vehicle_type with hc | ⟨hm, hc | hc⟩
  · rw [hc]; exact h
  all_goals {
    rw [hc]
    intro t
    have ht := h t
    first
      | rw [ledgerCount_applyCross_in, applyCross_in]
      | rw [ledgerCount_applyCross_out, applyCross_out]
    by_cases heq : c.track_id = t
    · subst heq
      rw [if_neg hm] at ht
      simp only [Finset.mem_insert_self, if_pos]
      omega
    · have hmem : (t ∈ insert c.track_id s.crossed_vehicles) ↔ t ∈ s.crossed_vehicles := by
        simp [Finset.mem_insert, Ne.symm heq]
      rw [if_neg heq, add_zero]
      by_cases hin : t ∈ s.crossed_vehicles
      · simp only [hmem.mpr hin, if_pos, hin] at *
        omega
      · rw [if_neg (fun hx => hin (hmem.mp hx))]
        rw [if_neg hin] at ht
        omega
  }

theorem ledgerInv_runChecks (s : ROIState) (calls : List CrossCall) (h : ledgerInv s) :
    ledgerInv (runChecks s calls) := by
  induction calls generalizing s with
  | nil => exact h
  | cons c rest ih => exact ih _ (ledgerInv_check s c h)

theorem set_roi_ledgerInv (s : ROIState) (pts : List (ℤ × ℤ)) (h3 : 3 ≤ pts.length) :
    ledgerInv (set_roi s pts).2 := by
  have h2 : ¬ pts.length < 3 := by omega
  intro t
  simp [set_roi, h2, generate_counting_lines, reset_counts, ledgerCount]

/-- A sequence of crossing checks after setting the square ROI, with track 1
checked twice. -/
def demoCalls : List CrossCall :=
  [{ track_id := 1, center := (50, 10), direction := (0, 0), vehicle_type := "car" },
   { track_id := 1, center := (50, 130), direction := (0, 0), vehicle_type := "car" },
   { track_id := 2, center := (50, 75), direction := (0, 0), vehicle_type := "bus" }]

/-- C1. At-most-once counting: under one ROI configuration (a successful
`set_roi` followed by any sequence of `check_vehicle_crossing` calls), the
ledger (entry log plus exit log) holds at most one record per track identity;
a call for an already-counted identity returns `(False, None, None)` without
changing any state; and a call that reports a crossing adds the identity to
the counted set. -/
theorem at_most_once_counting (s0 : ROIState) (pts : List (ℤ × ℤ)) (h3 : 3 ≤ pts.length)
    (calls : List CrossCall) (tid : ℕ) :
    ledgerCount (runChecks (set_roi s0 pts).2 calls) tid ≤ 1 ∧
    (∀ (s : ROIState) (c d : ℚ × ℚ) (vt : String), tid ∈ s.crossed_vehicles →
        check_vehicle_crossing s tid c d vt = ((false, none, none), s)) ∧
    (∀ (s : ROIState) (c d : ℚ × ℚ) (vt : String),
        (check_vehicle_crossing s tid c d vt).1.1 = true →
        tid ∈ (check_vehicle_crossing s tid c d vt).2.crossed_vehicles) := by
  refine ⟨?_, ?_, ?_⟩
  · have hinv := ledgerInv_runChecks _ calls (set_roi_ledgerInv s0 pts h3) tid
    exact le_trans hinv (by split <;> simp)
  · intro s c d vt hm
    by_cases he : s.counting_lines.isEmpty <;> simp [check_vehicle_crossing, he, hm]
  · intro s c d vt htrue
    rcases check_cases s tid c d vt with hc | ⟨hm, hc | hc⟩
    · rw [hc] at htrue
      simp at htrue
    · rw [hc, applyCross_in]
      exact Finset.mem_insert_self _ _
    · rw [hc, applyCross_out]
      exact Finset.mem_insert_self _ _

/-- Witness for `at_most_once_counting`: the square ROI and a concrete call
sequence in which track 1 is checked twice. -/
theorem at_most_once_counting_witness :
    ledgerCount (runChecks (set_roi initROI sqPts).2 demoCalls) 1 ≤ 1 ∧
    (∀ (s : ROIState) (c d : ℚ × ℚ) (vt : String), 1 ∈ s.crossed_vehicles →
        check_vehicle_crossing s 1 c d vt = ((false, none, none), s)) ∧
    (∀ (s : ROIState) (c d : ℚ × ℚ) (vt : String),
        (check_vehicle_crossing s 1 c d vt).1.1 = true →
        1 ∈ (check_vehicle_crossing s 1 c d vt).2.crossed_vehicles) :=
  at_most_once_counting initROI sqPts (by decide) demoCalls 1

theorem bumpVC_fst (vt dir : String) (p : String × VCount) : (bumpVC vt dir p).1 = p.1 := by
  unfold bumpVC
  split <;> rfl

theorem map_bumpVC_id (m : List (String × VCount)) (vt dir : String)
    (h : ∀ p ∈ m, (p.1 == vt) = false) : m.map (bumpVC vt dir) = m := by
  have h2 : ∀ p ∈ m, bumpVC vt dir p = p := by
    intro p hp
    unfold bumpVC
    simp [h p hp]
  rw [List.map_congr_left h2, List.map_id']

theorem map_fst_bumpVC (m : List (String × VCount)) (vt dir : String) :
    (m.map (bumpVC vt dir)).map Prod.fst = m.map Prod.fst := by
  rw [List.map_map]
  exact List.map_congr_left (fun p _ => bumpVC_fst vt dir p)

theorem updMap_sums (vt dir : String) (m : List (String × VCount)) :
    (m.map Prod.fst).Nodup → m.any (fun p => p.1 == vt) = true →
    ((m.map (bumpVC vt dir)).map (fun p => p.2.vin)).sum =
      (m.map (fun p => p.2.vin)).sum + (if dir == "in" then 1 else 0) ∧
    ((m.map (bumpVC vt dir)).map (fun p => p.2.vout)).sum =
      (m.map (fun p => p.2.vout)).sum + (if dir == "in" then 0 else 1) := by
  induction m with
  | nil => intro _ h; simp at h
  | cons q rest ih =>
    intro hnd hany
    rw [List.map_cons, List.nodup_cons] at hnd
    obtain ⟨hq1, hndr⟩ := hnd
    by_cases hq : (q.1 == vt) = true
    · have hvt : q.1 = vt := by simpa using hq
      have hrest : ∀ p ∈ rest, (p.1 == vt) = false := by
        intro p hp
        have hne : p.1 ≠ vt := by
          intro he
          apply hq1
          rw [hvt]
          exact List.mem_map.mpr ⟨p, hp, he⟩
        simpa using hne
      rw [List.map_cons, map_bumpVC_id rest vt dir hrest]
      by_cases hdir : (dir == "in") = true
      · simp [bumpVC, hq, hdir]
        omega
      · simp [bumpVC, hq, hdir]
        omega
    · have hany2 : rest.any (fun p => p.1 == vt) = true := by simpa [hq] using hany
      obtain ⟨ih1, ih2⟩ := ih hndr hany2
      have hbq : bumpVC vt dir q = q := by unfold bumpVC; simp [hq]
      rw [List.map_cons, hbq]
      simp only [List.map_cons, List.sum_cons]
      rw [ih1, ih2]
      constructor <;> omega

theorem updateByType_spec (l : List (String × VCount)) (vt dir : String)
    (hnd : (l.map Prod.fst).Nodup) :
    ((updateByType l vt dir).map Prod.fst).Nodup ∧
    (((updateByType l vt dir).map (fun p => p.2.vin)).sum =
      (l.map (fun p => p.2.vin)).sum + (if dir == "in" then 1 else 0)) ∧
    (((updateByType l vt dir).map (fun p => p.2.vout)).sum =
      (l.map (fun p => p.2.vout)).sum + (if dir == "in" then 0 else 1)) := by
  unfold updateByType
  by_cases hany : l.any (fun p => p.1 == vt) = true
  · rw [if_pos hany]
    obtain ⟨h1, h2⟩ := updMap_sums vt dir l hnd hany
    refine ⟨?_, h1, h2⟩
    rw [map_fst_bumpVC]
    exact hnd
  · rw [if_neg hany]
    have hany' : l.any (fun p => p.1 == vt) = false := by
      revert hany
      cases h : l.any (fun p => p.1 == vt) <;> simp
    have hall : ∀ p ∈ l, (p.1 == vt) = false := by
      intro p hp
      have := List.any_eq_false.mp hany' p hp
      simpa using this
    rw [List.map_append, map_bumpVC_id l vt dir hall]
    have hbump : [((vt, ⟨0, 0⟩) : String × VCount)].map (bumpVC vt dir) =
        [(vt, if dir == "in" then (⟨1, 0⟩ : VCount) else ⟨0, 1⟩)] := by
      by_cases hdir : (dir == "in") = true <;> simp [bumpVC, hdir]
    rw [hbump]
    have hvtnot : vt ∉ l.map Prod.fst := by
      intro hv
      obtain ⟨p, hp, hpe⟩ := List.mem_map.mp hv
      have := hall p hp
      rw [hpe] at this
      simp at this
    refine ⟨?_, ?_, ?_⟩
    · rw [List.map_append]
      refine List.Nodup.append hnd ?_ ?_
      · by_cases hdir : (dir == "in") = true <;> simp [hdir]
      · intro a ha hb
        by_cases hdir : (dir == "in") = true <;>
          simp [hdir] at hb <;> rw [hb] at ha <;> exact hvtnot ha
    · rw [List.map_append, List.sum_append]
      by_cases hdir : (dir == "in") = true <;> simp [hdir]
    · rw [List.map_append, List.sum_append]
      by_cases hdir : (dir == "in") = true <;> simp [hdir]

def roiInv (s : ROIState) : Prop := ledger_ok s ∧ (s.by_type.map Prod.fst).Nodup

theorem roiInv_applyCross_in (s : ROIState) (tid : ℕ) (vt : String)
    (hm : tid ∉ s.crossed_vehicles) (h : roiInv s) :
    roiInv (applyCross s tid vt "in" "entry") := by
  obtain ⟨⟨h1, h2, h3, h4, h5, h6, h7⟩, hnd⟩ := h
  obtain ⟨hnd2, hvin, hvout⟩ := updateByType_spec s.by_type vt "in" hnd
  rw [applyCross_in]
  refine ⟨⟨?_, ?_, ?_, ?_, ?_, ?_, ?_⟩, hnd2⟩
  · show s.total_in + 1 = _
    rw [hvin]
    simp
    omega
  · show s.total_out = _
    rw [hvout]
    simp
    exact h2
  · show s.total_in + 1 = (s.entry_log ++ _).length
    rw [List.length_append]
    simp
    omega
  · exact h4
  · show s.total_in + 1 + s.total_out = (insert tid s.crossed_vehicles).card
    rw [Finset.card_insert_of_not_mem hm]
    omega
  · intro e he
    rcases List.mem_append.mp he with he | he
    · exact h6 e he
    · simp at he
      rw [he]
      exact ⟨rfl, rfl⟩
  · exact h7

theorem roiInv_applyCross_out (s : ROIState) (tid : ℕ) (vt : String)
    (hm : tid ∉ s.crossed_vehicles) (h : roiInv s) :
    roiInv (applyCross s tid vt "out" "exit") := by
  obtain ⟨⟨h1, h2, h3, h4, h5, h6, h7⟩, hnd⟩ := h
  obtain ⟨hnd2, hvin, hvout⟩ := updateByType_spec s.by_type vt "out" hnd
  rw [applyCross_out]
  refine ⟨⟨?_, ?_, ?_, ?_, ?_, ?_, ?_⟩, hnd2⟩
  · show s.total_in = _
    rw [hvin]
    simp
    exact h1
  · show s.total_out + 1 = _
    rw [hvout]
    simp
    omega
  · exact h3
  · show s.total_out + 1 = (s.exit_log ++ _).length
    rw [List.length_append]
    simp
    omega
  · show s.total_in + (s.total_out + 1) = (insert tid s.crossed_vehicles).card
    rw [Finset.card_insert_of_not_mem hm]
    omega
  · exact h6
  · intro e he
    rcases List.mem_append.mp he with he | he
    · exact h7 e he
    · simp at he
      rw [he]
      exact ⟨rfl, rfl⟩

theorem roiInv_check (s : ROIState) (c : CrossCall) (h : roiInv s) :
    roiInv (check_vehicle_crossing s c.track_id c.center c.direction c.vehicle_type).2 := by
  rcases check_cases s c.track_id c.center c.direction c.vehicle_type with hc | ⟨hm, hc | hc⟩
  · rw [hc]; exact h
  · rw [hc]; exact roiInv_applyCross_in s c.track_id c.vehicle_type hm h
  · rw [hc]; exact roiInv_applyCross_out s c.track_id c.vehicle_type hm h

theorem roiInv_reset (s : ROIState) : roiInv (reset_counts s) := by
  unfold roiInv ledger_ok reset_counts
  simp

theorem roiInv_set_roi (s : ROIState) (pts : List (ℤ × ℤ)) (h : roiInv s) :
    roiInv (set_roi s pts).2 := by
  by_cases h3 : pts.length < 3
  · simpa [set_roi, h3] using h
  · have hreset := roiInv_reset { s with roi_points := pts }
    simp only [set_roi, h3, if_neg, if_false]
    unfold generate_counting_lines
    split
    · exact hreset
    · exact hreset

theorem roiInv_step (s : ROIState) (op : ROIOp) (h : roiInv s) : roiInv (stepROI s op) := by
  cases op with
  | setRoi pts => exact roiInv_set_roi s pts h
  | check c => exact roiInv_check s c h
  | reset => exact roiInv_reset s

theorem roiInv_runROI (ops : List ROIOp) : ∀ s : ROIState, roiInv s → roiInv (runROI s ops) := by
  induction ops with
  | nil => exact fun s h => h
  | cons op rest ih => exact fun s h => ih _ (roiInv_step s op h)

theorem roiInv_init : roiInv initROI := by
  unfold roiInv ledger_ok initROI
  simp

/-- C10. Ledger consistency: after any sequence of ROIManager operations
(`set_roi`, `check_vehicle_crossing`, `reset_counts`) from a fresh manager,
`total_in` equals both the per-category `in` sum and the entry-log length,
`total_out` equals both the per-category `out` sum and the exit-log length,
`total_in + total_out` equals the size of the counted set, every entry-log
record is `in`/`entry`, and every exit-log record is `out`/`exit`. -/
theorem ledger_consistency (ops : List ROIOp) : ledger_ok (runROI initROI ops) :=
  (roiInv_runROI ops initROI roiInv_init).1

/-- A concrete operation sequence for the ledger-consistency invariant. -/
def demoOps : List ROIOp :=
  [ROIOp.setRoi sqPts,
   ROIOp.check { track_id := 1, center := (50, 10), direction := (0, 0), vehicle_type := "car" },
   ROIOp.check { track_id := 1, center := (50, 130), direction := (0, 0), vehicle_type := "car" },
   ROIOp.check { track_id := 2, center := (50, 75), direction := (0, 0), vehicle_type := "bus" }]

/-- Witness for `ledger_consistency` at a concrete operation sequence. -/
theorem ledger_consistency_witness : ledger_ok (runROI initROI demoOps) :=
  ledger_consistency demoOps

/-- For a nondegenerate line and a nonnegative threshold, the executable
squared comparison `distance_lt` coincides with the strict comparison of
the real perpendicular distance against the threshold. -/
theorem distance_lt_iff (p : ℚ × ℚ) (a b : ℤ × ℤ) (t : ℚ) (ht : 0 ≤ t) (hab : a ≠ b) :
    (distance_lt p a b t = true) ↔ point_to_line_distance p a b < (t : ℝ) := by
  have hAB : lineA a b ≠ 0 ∨ lineB a b ≠ 0 := by
    by_contra hc
    push_neg at hc
    apply hab
    unfold lineA lineB at hc
    obtain ⟨h1, h2⟩ := hc
    have hx : a.1 = b.1 := by omega
    have hy : a.2 = b.2 := by omega
    exact Prod.ext hx hy
  set A : ℝ := (lineA a b : ℝ) with hA
  set B : ℝ := (lineB a b : ℝ) with hB
  set C : ℝ := (lineC a b : ℝ) with hC
  have hd : (0 : ℝ) < A ^ 2 + B ^ 2 := by
    rcases hAB with h | h
    · have hne : A ≠ 0 := by
        rw [hA]
        exact_mod_cast h
      nlinarith [pow_two_pos_of_ne_zero hne, sq_nonneg B]
    · have hne : B ≠ 0 := by
        rw [hB]
        exact_mod_cast h
      nlinarith [pow_two_pos_of_ne_zero hne, sq_nonneg A]
  have hsq : 0 < Real.sqrt (A ^ 2 + B ^ 2) := Real.sqrt_pos.mpr hd
  set n : ℝ := A * (p.1 : ℝ) + B * (p.2 : ℝ) + C with hn
  have hrhs : point_to_line_distance p a b < (t : ℝ) ↔
      |n| < (t : ℝ) * Real.sqrt (A ^ 2 + B ^ 2) := by
    unfold point_to_line_distance
    rw [div_lt_iff₀ hsq]
  have hmid : |n| < (t : ℝ) * Real.sqrt (A ^ 2 + B ^ 2) ↔
      n ^ 2 < (t : ℝ) ^ 2 * (A ^ 2 + B ^ 2) := by
    constructor
    · intro h
      obtain ⟨hb1, hb2⟩ := abs_lt.mp h
      have h2 := sq_lt_sq' hb1 hb2
      calc n ^ 2 < ((t : ℝ) * Real.sqrt (A ^ 2 + B ^ 2)) ^ 2 := h2
        _ = (t : ℝ) ^ 2 * (A ^ 2 + B ^ 2) := by rw [mul_pow, Real.sq_sqrt hd.le]
    · intro h
      have h1 : n ^ 2 < ((t : ℝ) * Real.sqrt (A ^ 2 + B ^ 2)) ^ 2 := by
        rw [mul_pow, Real.sq_sqrt hd.le]
        exact h
      exact abs_lt_of_sq_lt_sq h1 (by positivity)
  have hlhs : (distance_lt p a b t = true) ↔ n ^ 2 < (t : ℝ) ^ 2 * (A ^ 2 + B ^ 2) := by
    unfold distance_lt
    rw [decide_eq_true_eq, hn, hA, hB, hC]
    constructor
    · intro h
      have h2 : ((((lineA a b : ℚ) * p.1 + (lineB a b : ℚ) * p.2 + (lineC a b : ℚ)) ^ 2 : ℚ) : ℝ) <
          ((t ^ 2 * ((lineA a b : ℚ) ^ 2 + (lineB a b : ℚ) ^ 2) : ℚ) : ℝ) := by
        exact_mod_cast h
      push_cast at h2
      convert h2 using 2
    · intro h
      have h2 : ((((lineA a b : ℚ) * p.1 + (lineB a b : ℚ) * p.2 + (lineC a b : ℚ)) ^ 2 : ℚ) : ℝ) <
          ((t ^ 2 * ((lineA a b : ℚ) ^ 2 + (lineB a b : ℚ) ^ 2) : ℚ) : ℝ) := by
        push_cast
        convert h using 2
      exact_mod_cast h2
  rw [hlhs, ← hmid]
  exact hrhs.symm

/-- C3. Crossing trigger rule: for a not-yet-counted identity and the
two-boundary configuration (entry first, exit second), the entry boundary is
examined first; if the center's perpendicular distance to it is strictly below
the threshold the call reports `(True, 'in', 'entry')`; otherwise, if the exit
boundary is strictly below the threshold it reports `(True, 'out', 'exit')`;
if neither is, it returns `(False, None, None)` with the state unchanged. The
result is identical for any value of the supplied `direction` argument. -/
theorem crossing_trigger_rule (s : ROIState) (e x : Line)
    (hl : s.counting_lines = [e, x]) (he : e.type = "entry") (hx : x.type = "exit")
    (ht : 0 ≤ s.line_threshold) (hne : e.lstart ≠ e.lend) (hnx : x.lstart ≠ x.lend)
    (tid : ℕ) (c : ℚ × ℚ) (vt : String) (hmem : tid ∉ s.crossed_vehicles) (d : ℚ × ℚ) :
    (point_to_line_distance c e.lstart e.lend < (s.line_threshold : ℝ) →
      (check_vehicle_crossing s tid c d vt).1 = (true, some "in", some "entry")) ∧
    (¬ point_to_line_distance c e.lstart e.lend < (s.line_threshold : ℝ) →
      point_to_line_distance c x.lstart x.lend < (s.line_threshold : ℝ) →
      (check_vehicle_crossing s tid c d vt).1 = (true, some "out", some "exit")) ∧
    (¬ point_to_line_distance c e.lstart e.lend < (s.line_threshold : ℝ) →
      ¬ point_to_line_distance c x.lstart x.lend < (s.line_threshold : ℝ) →
      check_vehicle_crossing s tid c d vt = ((false, none, none), s)) ∧
    (∀ d2 : ℚ × ℚ, check_vehicle_crossing s tid c d vt = check_vehicle_crossing s tid c d2 vt) := by
  have hde := distance_lt_iff c e.lstart e.lend s.line_threshold ht hne
  have hdx := distance_lt_iff c x.lstart x.lend s.line_threshold ht hnx
  refine ⟨?_, ?_, ?_, fun d2 => rfl⟩
  · intro h1
    have hb : distance_lt c e.lstart e.lend s.line_threshold = true := hde.mpr h1
    simp [check_vehicle_crossing, hl, hmem, checkLines, hb, he]
  · intro h1 h2
    have hb1 : distance_lt c e.lstart e.lend s.line_threshold = false := by
      cases hbe : distance_lt c e.lstart e.lend s.line_threshold
      · rfl
      · exact absurd (hde.mp hbe) h1
    have hb2 : distance_lt c x.lstart x.lend s.line_threshold = true := hdx.mpr h2
    simp [check_vehicle_crossing, hl, hmem, checkLines, hb1, hb2, hx]
  · intro h1 h2
    have hb1 : distance_lt c e.lstart e.lend s.line_threshold = false := by
      cases hbe : distance_lt c e.lstart e.lend s.line_threshold
      · rfl
      · exact absurd (hde.mp hbe) h1
    have hb2 : distance_lt c x.lstart x.lend s.line_threshold = false := by
      cases hbx : distance_lt c x.lstart x.lend s.line_threshold
      · rfl
      · exact absurd (hdx.mp hbx) h2
    simp [check_vehicle_crossing, hl, hmem, checkLines, hb1, hb2]

theorem sqROI_threshold : sqROI.line_threshold = 100 := by
  simp [sqROI, set_roi, sqPts, generate_counting_lines, reset_counts, initROI]

theorem sqROI_crossed : sqROI.crossed_vehicles = ∅ := by
  simp [sqROI, set_roi, sqPts, generate_counting_lines, reset_counts, initROI]

/-- Witness for `crossing_trigger_rule` on the square ROI. -/
theorem crossing_trigger_rule_witness :
    (point_to_line_distance (50, 10) (0, 20) (100, 20) < (sqROI.line_threshold : ℝ) →
      (check_vehicle_crossing sqROI 1 (50, 10) (0, 0) "car").1 =
        (true, some "in", some "entry")) ∧
    (¬ point_to_line_distance (50, 10) (0, 20) (100, 20) < (sqROI.line_threshold : ℝ) →
      point_to_line_distance (50, 10) (0, 80) (100, 80) < (sqROI.line_threshold : ℝ) →
      (check_vehicle_crossing sqROI 1 (50, 10) (0, 0) "car").1 =
        (true, some "out", some "exit")) ∧
    (¬ point_to_line_distance (50, 10) (0, 20) (100, 20) < (sqROI.line_threshold : ℝ) →
      ¬ point_to_line_distance (50, 10) (0, 80) (100, 80) < (sqROI.line_threshold : ℝ) →
      check_vehicle_crossing sqROI 1 (50, 10) (0, 0) "car" = ((false, none, none), sqROI)) ∧
    (∀ d2 : ℚ × ℚ,
      check_vehicle_crossing sqROI 1 (50, 10) (0, 0) "car" =
        check_vehicle_crossing sqROI 1 (50, 10) d2 "car") :=
  crossing_trigger_rule sqROI
    { lstart := (0, 20), lend := (100, 20), type := "entry" }
    { lstart := (0, 80), lend := (100, 80), type := "exit" }
    sqROI_counting_lines rfl rfl
    (by rw [sqROI_threshold]; norm_num)
    (by decide) (by decide)
    1 (50, 10) "car"
    (by rw [sqROI_crossed]; exact Finset.not_mem_empty 1)
    (0, 0)

/-- C9. Direction estimator: `get_track_direction` returns `none` exactly when
the track's history has fewer than 2 entries or the averaged frame-to-frame
displacement over the last (up to 3) entries is zero; otherwise it returns
that averaged displacement normalized to Euclidean norm 1. Being a total
function of the embedded state, it never raises — the zero-magnitude case is
the `none` branch. -/
theorem direction_estimator (s : TrackerState) (tid : ℕ) :
    (get_track_direction s tid = none ↔
      (historyOf s tid).length < 2 ∨ avgDisp (historyOf s tid) = (0, 0)) ∧
    (∀ v : ℝ × ℝ, get_track_direction s tid = some v →
      Real.sqrt (v.1 ^ 2 + v.2 ^ 2) = 1 ∧
      v.1 = ((avgDisp (historyOf s tid)).1 : ℝ) /
        Real.sqrt (((avgDisp (historyOf s tid)).1 : ℝ) ^ 2 +
          ((avgDisp (historyOf s tid)).2 : ℝ) ^ 2) ∧
      v.2 = ((avgDisp (historyOf s tid)).2 : ℝ) /
        Real.sqrt (((avgDisp (historyOf s tid)).1 : ℝ) ^ 2 +
          ((avgDisp (historyOf s tid)).2 : ℝ) ^ 2)) := by
  cases hf : s.track_history.find? (fun p => p.1 == tid) with
  | none =>
    have hg : get_track_direction s tid = none := by
      unfold get_track_direction
      rw [hf]
    have hh : historyOf s tid = [] := by
      unfold historyOf
      rw [hf]
      rfl
    refine ⟨?_, ?_⟩
    · rw [hg, hh]
      simp
    · intro v hv
      rw [hg] at hv
      exact absurd hv (by simp)
  | some pr =>
    have hh : historyOf s tid = pr.2 := by
      unfold historyOf
      rw [hf]
      rfl
    by_cases hlen : pr.2.length < 2
    · have hg : get_track_direction s tid = none := by
        unfold get_track_direction
        rw [hf]
        simp [hlen]
      refine ⟨?_, ?_⟩
      · rw [hg, hh]
        simp [hlen]
      · intro v hv
        rw [hg] at hv
        exact absurd hv (by simp)
    · have hrec : ¬ (pr.2.drop (pr.2.length - 3)).length < 2 := by
        rw [List.length_drop]
        omega
      by_cases hz : avgDisp pr.2 = (0, 0)
      · have hmag0 : Real.sqrt (((avgDisp pr.2).1 : ℝ) ^ 2 + ((avgDisp pr.2).2 : ℝ) ^ 2) = 0 := by
          rw [hz]
          norm_num
        have hg : get_track_direction s tid = none := by
          unfold get_track_direction
          rw [hf]
          dsimp only
          rw [if_neg hlen, if_neg hrec, if_neg]
          rw [hmag0]
          exact lt_irrefl 0
        refine ⟨?_, ?_⟩
        · rw [hg, hh]
          exact ⟨fun _ => Or.inr hz, fun _ => rfl⟩
        · intro v hv
          rw [hg] at hv
          exact absurd hv (by simp)
      · have hz1 : ¬ ((avgDisp pr.2).1 = 0 ∧ (avgDisp pr.2).2 = 0) := by
          intro hc
          exact hz (Prod.ext hc.1 hc.2)
        have hpos : (0 : ℝ) < ((avgDisp pr.2).1 : ℝ) ^ 2 + ((avgDisp pr.2).2 : ℝ) ^ 2 := by
          rcases not_and_or.mp hz1 with h | h
          · have hx : ((avgDisp pr.2).1 : ℝ) ≠ 0 := by exact_mod_cast h
            nlinarith [pow_two_pos_of_ne_zero hx, sq_nonneg (((avgDisp pr.2).2 : ℝ))]
          · have hx : ((avgDisp pr.2).2 : ℝ) ≠ 0 := by exact_mod_cast h
            nlinarith [pow_two_pos_of_ne_zero hx, sq_nonneg (((avgDisp pr.2).1 : ℝ))]
        have hsqp : 0 < Real.sqrt (((avgDisp pr.2).1 : ℝ) ^ 2 + ((avgDisp pr.2).2 : ℝ) ^ 2) :=
          Real.sqrt_pos.mpr hpos
        have hg : get_track_direction s tid =
            some (((avgDisp pr.2).1 : ℝ) /
                Real.sqrt (((avgDisp pr.2).1 : ℝ) ^ 2 + ((avgDisp pr.2).2 : ℝ) ^ 2),
              ((avgDisp pr.2).2 : ℝ) /
                Real.sqrt (((avgDisp pr.2).1 : ℝ) ^ 2 + ((avgDisp pr.2).2 : ℝ) ^ 2)) := by
          unfold get_track_direction
          rw [hf]
          dsimp only
          rw [if_neg hlen, if_neg hrec, if_pos hsqp]
        refine ⟨?_, ?_⟩
        · rw [hg, hh]
          constructor
          · intro hc
            exact absurd hc (by simp)
          · intro hc
            rcases hc with hc | hc
            · exact absurd hc hlen
            · exact absurd hc hz
        · intro v hv
          rw [hg] at hv
          have hv2 := Option.some.inj hv
          rw [hh, ← hv2]
          refine ⟨?_, rfl, rfl⟩
          have hm2 : Real.sqrt (((avgDisp pr.2).1 : ℝ) ^ 2 + ((avgDisp pr.2).2 : ℝ) ^ 2) ^ 2 =
              ((avgDisp pr.2).1 : ℝ) ^ 2 + ((avgDisp pr.2).2 : ℝ) ^ 2 :=
            Real.sq_sqrt hpos.le
          have hone : (((avgDisp pr.2).1 : ℝ) /
                Real.sqrt (((avgDisp pr.2).1 : ℝ) ^ 2 + ((avgDisp pr.2).2 : ℝ) ^ 2)) ^ 2 +
              (((avgDisp pr.2).2 : ℝ) /
                Real.sqrt (((avgDisp pr.2).1 : ℝ) ^ 2 + ((avgDisp pr.2).2 : ℝ) ^ 2)) ^ 2 = 1 := by
            rw [div_pow, div_pow, hm2, div_add_div_same, div_self (ne_of_gt hpos)]
          rw [hone]
          exact Real.sqrt_one

/-- A two-entry history moving one pixel to the right per frame. -/
def demoHist : List HistEntry :=
  [{ frame := 1, center := (0, 0), bbox := { x1 := 0, y1 := 0, x2 := 10, y2 := 10 },
     confidence := 1, class_name := "car", timestamp := 1 },
   { frame := 2, center := (1, 0), bbox := { x1 := 1, y1 := 0, x2 := 11, y2 := 10 },
     confidence := 1, class_name := "car", timestamp := 2 }]

/-- A tracker state holding `demoHist` for track 1. -/
def demoTracker : TrackerState := { initTracker with track_history := [(1, demoHist)] }

/-- Witness for `direction_estimator` at a concrete track history. -/
theorem direction_estimator_witness :
    (get_track_direction demoTracker 1 = none ↔
      (historyOf demoTracker 1).length < 2 ∨ avgDisp (historyOf demoTracker 1) = (0, 0)) ∧
    (∀ v : ℝ × ℝ, get_track_direction demoTracker 1 = some v →
      Real.sqrt (v.1 ^ 2 + v.2 ^ 2) = 1 ∧
      v.1 = ((avgDisp (historyOf demoTracker 1)).1 : ℝ) /
        Real.sqrt (((avgDisp (historyOf demoTracker 1)).1 : ℝ) ^ 2 +
          ((avgDisp (historyOf demoTracker 1)).2 : ℝ) ^ 2) ∧
      v.2 = ((avgDisp (historyOf demoTracker 1)).2 : ℝ) /
        Real.sqrt (((avgDisp (historyOf demoTracker 1)).1 : ℝ) ^ 2 +
          ((avgDisp (historyOf demoTracker 1)).2 : ℝ) ^ 2)) :=
  direction_estimator demoTracker 1

/-! ## Tracker lemmas -/

theorem mem_of_idx {α : Type} (l : List α) (i : ℕ) (a : α) (h : l[i]? = some a) : a ∈ l := by
  rw [List.getElem?_eq_some] at h
  obtain ⟨hlt, he⟩ := h
  exact he ▸ List.getElem_mem hlt

theorem keyed_eq {β : Type} (l : List (ℕ × β)) (hnd : (l.map Prod.fst).Nodup) :
    ∀ {a : ℕ} {b c : β}, (a, b) ∈ l → (a, c) ∈ l → b = c := by
  induction l with
  | nil => intro a b c hb _; exact absurd hb (List.not_mem_nil _)
  | cons q rest ih =>
    intro a b c hb hc
    rw [List.map_cons, List.nodup_cons] at hnd
    obtain ⟨hq, hndr⟩ := hnd
    rcases List.mem_cons.mp hb with hb | hb <;> rcases List.mem_cons.mp hc with hc | hc
    · rw [← hb] at hc
      exact ((Prod.mk.injEq _ _ _ _).mp hc.symm).2
    · exact absurd (List.mem_map.mpr ⟨(a, c), hc, rfl⟩) (by rw [← hb] at hq; exact hq)
    · exact absurd (List.mem_map.mpr ⟨(a, b), hb, rfl⟩) (by rw [← hc] at hq; exact hq)
    · exact ih hndr hb hc

theorem updTracksAux_fst (g : ℕ → TrackData → TrackData) :
    ∀ (l : List (ℕ × TrackData)) (n : ℕ),
      (updTracksAux g n l).map Prod.fst = l.map Prod.fst := by
  intro l
  induction l with
  | nil => intro n; rfl
  | cons q rest ih =>
    intro n
    simp only [updTracksAux, List.map_cons, ih (n + 1)]

theorem updTracksAux_mem (g : ℕ → TrackData → TrackData) :
    ∀ (l : List (ℕ × TrackData)) (n : ℕ) (q : ℕ × TrackData),
      q ∈ updTracksAux g n l →
      ∃ (k : ℕ) (t : TrackData), l[k]? = some (q.1, t) ∧ q.2 = g (n + k) t := by
  intro l
  induction l with
  | nil => intro n q hq; exact absurd hq (List.not_mem_nil _)
  | cons p rest ih =>
    intro n q hq
    rcases List.mem_cons.mp hq with hq | hq
    · subst hq
      exact ⟨0, p.2, by simp, by simp⟩
    · obtain ⟨k, t, hk, he⟩ := ih (n + 1) q hq
      refine ⟨k + 1, t, by rw [List.getElem?_cons_succ]; exact hk, ?_⟩
      rw [he]
      congr 1
      omega

theorem updTracksAux_mem_of (g : ℕ → TrackData → TrackData) :
    ∀ (l : List (ℕ × TrackData)) (n k : ℕ) (a : ℕ) (t : TrackData),
      l[k]? = some (a, t) → (a, g (n + k) t) ∈ updTracksAux g n l := by
  intro l
  induction l with
  | nil => intro n k a t h; rw [List.getElem?_nil] at h; exact absurd h (by simp)
  | cons p rest ih =>
    intro n k a t h
    cases k with
    | zero =>
      rw [List.getElem?_cons_zero] at h
      have hp := Option.some.inj h
      subst hp
      simp [updTracksAux]
    | succ k2 =>
      rw [List.getElem?_cons_succ] at h
      have := ih (n + 1) k2 a t h
      have harith : n + 1 + k2 = n + (k2 + 1) := by omega
      rw [harith] at this
      exact List.mem_cons_of_mem _ this

theorem assoc_find_none (s : TrackerState) (dets : List CurDet) (i : ℕ) (tid : ℕ) (t : TrackData)
    (hget : s.tracks[i]? = some (tid, t)) (hnm : tid ∉ matchedIds s dets) :
    (associate (iouRows s.tracks dets) s.max_iou_distance).find? (fun p => p.1 == i) = none := by
  cases hfind : (associate (iouRows s.tracks dets) s.max_iou_distance).find? (fun p => p.1 == i) with
  | none => rfl
  | some ij =>
    exfalso
    apply hnm
    have hmem := List.mem_of_find?_eq_some hfind
    have heq : ij.1 = i := by
      have := List.find?_some hfind
      simpa using this
    unfold matchedIds
    rw [List.mem_filterMap]
    refine ⟨ij, hmem, ?_⟩
    rw [heq, hget]
    rfl

theorem updateExisting_tracks (s : TrackerState) (dets : List CurDet) :
    (updateExisting s dets).tracks =
      updTracksAux (matchUpd (associate (iouRows s.tracks dets) s.max_iou_distance) dets)
        0 s.tracks := rfl

theorem updateExisting_fields (s : TrackerState) (dets : List CurDet) :
    (updateExisting s dets).max_age = s.max_age ∧
    (updateExisting s dets).n_init = s.n_init ∧
    (updateExisting s dets).max_iou_distance = s.max_iou_distance ∧
    (updateExisting s dets).next_id = s.next_id ∧
    (updateExisting s dets).frame_count = s.frame_count :=
  ⟨rfl, rfl, rfl, rfl, rfl⟩

theorem updateExisting_fst (s : TrackerState) (dets : List CurDet) :
    trackIds (updateExisting s dets) = trackIds s := by
  unfold trackIds
  rw [updateExisting_tracks]
  exact updTracksAux_fst _ s.tracks 0

/-- Every entry of the updated track list carrying an unmatched identity is
exactly the aged copy of that identity's unique old entry, and conversely the
aged copy is present. -/
theorem updateExisting_unmatched (s : TrackerState) (dets : List CurDet)
    (hnd : (trackIds s).Nodup) (tid : ℕ) (t : TrackData)
    (hmem : (tid, t) ∈ s.tracks) (hnm : tid ∉ matchedIds s dets) :
    ∀ b : TrackData, ((tid, b) ∈ (updateExisting s dets).tracks ↔ b = { t with age := t.age + 1 }) := by
  intro b
  rw [updateExisting_tracks]
  constructor
  · intro hb
    obtain ⟨k, t2, hk, he⟩ := updTracksAux_mem _ s.tracks 0 (tid, b) hb
    dsimp only at hk he
    have ht2 : t2 = t := keyed_eq s.tracks hnd (mem_of_idx _ k _ hk) hmem
    subst ht2
    rw [he]
    unfold matchUpd
    rw [Nat.zero_add]
    rw [assoc_find_none s dets k tid t2 hk hnm]
  · intro hb
    obtain ⟨i, hi⟩ := List.mem_iff_getElem?.mp hmem
    have := updTracksAux_mem_of (matchUpd (associate (iouRows s.tracks dets) s.max_iou_distance) dets)
      s.tracks 0 i tid t hi
    have hupd : matchUpd (associate (iouRows s.tracks dets) s.max_iou_distance) dets (0 + i) t =
        { t with age := t.age + 1 } := by
      unfold matchUpd
      have h0 : (0 : ℕ) + i = i := by omega
      rw [h0, assoc_find_none s dets i tid t hi hnm]
    rw [hupd] at this
    rw [hb]
    exact this

theorem createNewAux_spec (matched : List ℕ) :
    ∀ (ds : List CurDet) (i : ℕ) (st : TrackerState),
      (createNewAux matched ds i st).max_age = st.max_age ∧
      (createNewAux matched ds i st).n_init = st.n_init ∧
      (createNewAux matched ds i st).max_iou_distance = st.max_iou_distance ∧
      (createNewAux matched ds i st).track_history = st.track_history ∧
      (createNewAux matched ds i st).frame_count = st.frame_count ∧
      st.next_id ≤ (createNewAux matched ds i st).next_id ∧
      (∀ q ∈ (createNewAux matched ds i st).tracks,
        q ∈ st.tracks ∨
          (st.next_id ≤ q.1 ∧ q.1 < (createNewAux matched ds i st).next_id ∧
            q.2.hits = 1 ∧ q.2.age = 0)) := by
  intro ds
  induction ds with
  | nil =>
    intro i st
    exact ⟨rfl, rfl, rfl, rfl, rfl, le_refl _, fun q hq => Or.inl hq⟩
  | cons d rest ih =>
    intro i st
    by_cases hi : i ∈ matched
    · simpa [createNewAux, hi] using ih (i + 1) st
    · have hrec := ih (i + 1)
        { st with tracks := st.tracks ++ [(st.next_id, newTrack d)], next_id := st.next_id + 1 }
      obtain ⟨h1, h2, h3, h4, h5, h6, h7⟩ := hrec
      dsimp only at h1 h2 h3 h4 h5 h6 h7
      have hstep : createNewAux matched (d :: rest) i st =
          createNewAux matched rest (i + 1)
            { st with
              tracks := st.tracks ++ [(st.next_id, newTrack d)],
              next_id := st.next_id + 1 } := by
        simp [createNewAux, hi]
      rw [hstep]
      refine ⟨h1, h2, h3, h4, h5, by omega, ?_⟩
      intro q hq
      rcases h7 q hq with hq2 | hq2
      · rcases List.mem_append.mp hq2 with hq3 | hq3
        · exact Or.inl hq3
        · right
          have : q = (st.next_id, newTrack d) := by simpa using hq3
          rw [this]
          refine ⟨le_refl _, ?_, rfl, rfl⟩
          omega
      · right
        obtain ⟨ha, hb, hc, hd2⟩ := hq2
        exact ⟨by omega, hb, hc, hd2⟩

theorem createNewAux_valid (matched : List ℕ) :
    ∀ (ds : List CurDet) (i : ℕ) (st : TrackerState),
      (trackIds st).Nodup → (∀ p ∈ st.tracks, p.1 < st.next_id) →
      (trackIds (createNewAux matched ds i st)).Nodup ∧
      (∀ p ∈ (createNewAux matched ds i st).tracks,
        p.1 < (createNewAux matched ds i st).next_id) := by
  intro ds
  induction ds with
  | nil =>
    intro i st hnd hbnd
    exact ⟨hnd, hbnd⟩
  | cons d rest ih =>
    intro i st hnd hbnd
    by_cases hi : i ∈ matched
    · simpa [createNewAux, hi] using ih (i + 1) st hnd hbnd
    · have hstep : createNewAux matched (d :: rest) i st =
          createNewAux matched rest (i + 1)
            { st with
              tracks := st.tracks ++ [(st.next_id, newTrack d)],
              next_id := st.next_id + 1 } := by
        simp [createNewAux, hi]
      rw [hstep]
      apply ih
      · unfold trackIds at *
        dsimp only
        rw [List.map_append]
        refine List.Nodup.append hnd (by simp) ?_
        intro a ha hb
        simp at hb
        obtain ⟨p, hp, hpe⟩ := List.mem_map.mp ha
        have := hbnd p hp
        omega
      · intro p hp
        dsimp only at hp ⊢
        rcases List.mem_append.mp hp with hp2 | hp2
        · have := hbnd p hp2
          omega
        · have : p = (st.next_id, newTrack d) := by simpa using hp2
          rw [this]
          omega

theorem removeOld_tracks (s : TrackerState) :
    (removeOld s).tracks = s.tracks.filter (fun p => decide (p.2.age ≤ s.max_age)) := rfl

theorem removeOld_fields (s : TrackerState) :
    (removeOld s).max_age = s.max_age ∧
    (removeOld s).n_init = s.n_init ∧
    (removeOld s).max_iou_distance = s.max_iou_distance ∧
    (removeOld s).next_id = s.next_id ∧
    (removeOld s).frame_count = s.frame_count :=
  ⟨rfl, rfl, rfl, rfl, rfl⟩

theorem mem_removeOld (s : TrackerState) (q : ℕ × TrackData) :
    q ∈ (removeOld s).tracks ↔ q ∈ s.tracks ∧ q.2.age ≤ s.max_age := by
  rw [removeOld_tracks, List.mem_filter, decide_eq_true_eq]

theorem mem_activeOf (s : TrackerState) (a : ActiveTrack) :
    a ∈ activeOf s ↔ ∃ p ∈ s.tracks, p.2.age < s.max_age ∧ s.n_init ≤ p.2.hits ∧
      a = { track_id := p.1, bbox := p.2.bbox, confidence := p.2.confidence,
            class_name := p.2.class_name, center := p.2.center } := by
  unfold activeOf
  rw [List.mem_filterMap]
  constructor
  · rintro ⟨p, hp, hpe⟩
    by_cases hc : p.2.age < s.max_age ∧ s.n_init ≤ p.2.hits
    · rw [if_pos hc] at hpe
      exact ⟨p, hp, hc.1, hc.2, (Option.some.inj hpe).symm⟩
    · rw [if_neg hc] at hpe
      exact absurd hpe (by simp)
  · rintro ⟨p, hp, h1, h2, he⟩
    refine ⟨p, hp, ?_⟩
    rw [if_pos ⟨h1, h2⟩, he]

theorem updateExisting_unmatched_all (s : TrackerState) (dets : List CurDet) (tid : ℕ)
    (hnm : tid ∉ matchedIds s dets) :
    ∀ b : TrackData, (tid, b) ∈ (updateExisting s dets).tracks →
      ∃ t2 : TrackData, (tid, t2) ∈ s.tracks ∧ b = { t2 with age := t2.age + 1 } := by
  intro b hb
  rw [updateExisting_tracks] at hb
  obtain ⟨k, t2, hk, he⟩ := updTracksAux_mem _ s.tracks 0 (tid, b) hb
  dsimp only at hk he
  refine ⟨t2, mem_of_idx _ k _ hk, ?_⟩
  rw [he]
  unfold matchUpd
  rw [Nat.zero_add]
  rw [assoc_find_none s dets k tid t2 hk hnm]

theorem createNew_eq (s : TrackerState) (dets : List CurDet) :
    createNew s dets = createNewAux (matchedDetIdxs s.tracks dets s.max_iou_distance) dets 0 s :=
  rfl

theorem update_tracks_eq (s : TrackerState) (dets : List Detection) :
    update_tracks s dets =
      (removeOld (createNew (updateExisting { s with frame_count := s.frame_count + 1 }
          (dets.map toCur)) (dets.map toCur)),
       activeOf (removeOld (createNew (updateExisting { s with frame_count := s.frame_count + 1 }
          (dets.map toCur)) (dets.map toCur)))) := rfl

theorem update_tracks_config (s : TrackerState) (dets : List Detection) :
    (update_tracks s dets).1.max_age = s.max_age ∧
    (update_tracks s dets).1.n_init = s.n_init ∧
    s.next_id ≤ (update_tracks s dets).1.next_id := by
  obtain ⟨c1, c2, c3, c4, c5, c6, c7⟩ :=
    createNewAux_spec
      (matchedDetIdxs (updateExisting { s with frame_count := s.frame_count + 1 }
        (dets.map toCur)).tracks (dets.map toCur)
        (updateExisting { s with frame_count := s.frame_count + 1 }
          (dets.map toCur)).max_iou_distance)
      (dets.map toCur) 0
      (updateExisting { s with frame_count := s.frame_count + 1 } (dets.map toCur))
  rw [update_tracks_eq]
  refine ⟨?_, ?_, ?_⟩
  · show (createNew _ _).max_age = s.max_age
    rw [createNew_eq, c1]
    rfl
  · show (createNew _ _).n_init = s.n_init
    rw [createNew_eq, c2]
    rfl
  · show s.next_id ≤ (createNew _ _).next_id
    rw [createNew_eq]
    exact c6

theorem update_tracks_valid (s : TrackerState) (dets : List Detection) (h : validIds s) :
    validIds (update_tracks s dets).1 ∧
    (∀ q ∈ (update_tracks s dets).1.tracks, q.1 ∉ trackIds s → s.next_id ≤ q.1) := by
  obtain ⟨hnd, hbnd⟩ := h
  have hfst1 : trackIds (updateExisting { s with frame_count := s.frame_count + 1 }
      (dets.map toCur)) = trackIds s :=
    updateExisting_fst { s with frame_count := s.frame_count + 1 } (dets.map toCur)
  have hnd1 : (trackIds (updateExisting { s with frame_count := s.frame_count + 1 }
      (dets.map toCur))).Nodup := by
    rw [hfst1]
    exact hnd
  have hbnd1 : ∀ p ∈ (updateExisting { s with frame_count := s.frame_count + 1 }
      (dets.map toCur)).tracks,
      p.1 < (updateExisting { s with frame_count := s.frame_count + 1 }
        (dets.map toCur)).next_id := by
    intro p hp
    have hmem : p.1 ∈ trackIds (updateExisting { s with frame_count := s.frame_count + 1 }
        (dets.map toCur)) := List.mem_map.mpr ⟨p, hp, rfl⟩
    rw [hfst1] at hmem
    obtain ⟨p2, hp2, hpe⟩ := List.mem_map.mp hmem
    have hb2 := hbnd p2 hp2
    have hnid : (updateExisting { s with frame_count := s.frame_count + 1 }
        (dets.map toCur)).next_id = s.next_id := rfl
    omega
  have hvalid2 := createNewAux_valid
    (matchedDetIdxs (updateExisting { s with frame_count := s.frame_count + 1 }
      (dets.map toCur)).tracks (dets.map toCur)
      (updateExisting { s with frame_count := s.frame_count + 1 }
        (dets.map toCur)).max_iou_distance)
    (dets.map toCur) 0
    (updateExisting { s with frame_count := s.frame_count + 1 } (dets.map toCur)) hnd1 hbnd1
  have hspec2 := createNewAux_spec
    (matchedDetIdxs (updateExisting { s with frame_count := s.frame_count + 1 }
      (dets.map toCur)).tracks (dets.map toCur)
      (updateExisting { s with frame_count := s.frame_count + 1 }
        (dets.map toCur)).max_iou_distance)
    (dets.map toCur) 0
    (updateExisting { s with frame_count := s.frame_count + 1 } (dets.map toCur))
  rw [update_tracks_eq]
  dsimp only
  rw [← createNew_eq] at hvalid2 hspec2
  constructor
  · constructor
    · have hsub : List.Sublist
          (trackIds (removeOld (createNew (updateExisting
            { s with frame_count := s.frame_count + 1 } (dets.map toCur)) (dets.map toCur))))
          (trackIds (createNew (updateExisting { s with frame_count := s.frame_count + 1 }
            (dets.map toCur)) (dets.map toCur))) := by
        unfold trackIds
        rw [removeOld_tracks]
        exact (List.filter_sublist _).map Prod.fst
      exact hvalid2.1.sublist hsub
    · intro p hp
      have hp2 := ((mem_removeOld _ p).mp hp).1
      have := hvalid2.2 p hp2
      have hnid : (removeOld (createNew (updateExisting
          { s with frame_count := s.frame_count + 1 } (dets.map toCur))
          (dets.map toCur))).next_id =
          (createNew (updateExisting { s with frame_count := s.frame_count + 1 }
            (dets.map toCur)) (dets.map toCur)).next_id := rfl
      omega
  · intro q hq hnot
    have hq2 := ((mem_removeOld _ q).mp hq).1
    rcases hspec2.2.2.2.2.2.2 q hq2 with hq3 | hq3
    · exfalso
      apply hnot
      rw [← hfst1]
      exact List.mem_map.mpr ⟨q, hq3, rfl⟩
    · have hnid : (updateExisting { s with frame_count := s.frame_count + 1 }
          (dets.map toCur)).next_id = s.next_id := rfl
      omega

theorem tid_hits_one_step (s : TrackerState) (d : List Detection) (tid : ℕ)
    (htid : tid < s.next_id)
    (hh : ∀ b : TrackData, (tid, b) ∈ s.tracks → b.hits = 1)
    (hnm : tid ∉ matchedIds s (d.map toCur)) :
    ∀ b : TrackData, (tid, b) ∈ (update_tracks s d).1.tracks → b.hits = 1 := by
  intro b hb
  rw [update_tracks_eq] at hb
  dsimp only at hb
  have hspec2 := createNewAux_spec
    (matchedDetIdxs (updateExisting { s with frame_count := s.frame_count + 1 }
      (d.map toCur)).tracks (d.map toCur)
      (updateExisting { s with frame_count := s.frame_count + 1 }
        (d.map toCur)).max_iou_distance)
    (d.map toCur) 0
    (updateExisting { s with frame_count := s.frame_count + 1 } (d.map toCur))
  rw [← createNew_eq] at hspec2
  have hb2 := ((mem_removeOld _ _).mp hb).1
  rcases hspec2.2.2.2.2.2.2 (tid, b) hb2 with hb3 | hb3
  · have hnm2 : tid ∉ matchedIds { s with frame_count := s.frame_count + 1 } (d.map toCur) := hnm
    obtain ⟨t2, ht2mem, ht2e⟩ := updateExisting_unmatched_all
      { s with frame_count := s.frame_count + 1 } (d.map toCur) tid hnm2 b hb3
    rw [ht2e]
    exact hh t2 ht2mem
  · exfalso
    have hnid : (updateExisting { s with frame_count := s.frame_count + 1 }
        (d.map toCur)).next_id = s.next_id := rfl
    have := hb3.1
    dsimp only at this
    omega

theorem tid_not_active (s : TrackerState) (d : List Detection) (tid : ℕ)
    (hn : 2 ≤ s.n_init)
    (hh3 : ∀ b : TrackData, (tid, b) ∈ (update_tracks s d).1.tracks → b.hits = 1) :
    ∀ a ∈ (update_tracks s d).2, a.track_id ≠ tid := by
  intro a ha hae
  have h2 : (update_tracks s d).2 = activeOf (update_tracks s d).1 := rfl
  rw [h2] at ha
  obtain ⟨p, hp, hage, hhits, he⟩ := (mem_activeOf _ _).mp ha
  have hpid : p.1 = tid := by
    rw [he] at hae
    exact hae
  have hone : p.2.hits = 1 := by
    apply hh3
    rw [← hpid]
    exact hp
  have hni : (update_tracks s d).1.n_init = s.n_init := (update_tracks_config s d).2.1
  rw [hni] at hhits
  omega

theorem runUpdates_cons (s : TrackerState) (d : List Detection) (rest : List (List Detection)) :
    runUpdates s (d :: rest) =
      ((runUpdates (update_tracks s d).1 rest).1,
        (update_tracks s d).2 :: (runUpdates (update_tracks s d).1 rest).2) := rfl

theorem neverMatched_cons (s : TrackerState) (d : List Detection) (rest : List (List Detection))
    (tid : ℕ) :
    neverMatched s (d :: rest) tid =
      (decide (tid ∉ matchedIds s (d.map toCur)) &&
        neverMatched (update_tracks s d).1 rest tid) := rfl

theorem never_active_run (seq : List (List Detection)) :
    ∀ (s : TrackerState) (tid : ℕ), 2 ≤ s.n_init → validIds s → tid < s.next_id →
      (∀ b : TrackData, (tid, b) ∈ s.tracks → b.hits = 1) →
      neverMatched s seq tid = true →
      ∀ out ∈ (runUpdates s seq).2, ∀ a ∈ out, a.track_id ≠ tid := by
  induction seq with
  | nil =>
    intro s tid _ _ _ _ _ out hout
    simp [runUpdates] at hout
  | cons d rest ih =>
    intro s tid hn hv htid hh hnm out hout a ha
    rw [neverMatched_cons, Bool.and_eq_true, decide_eq_true_eq] at hnm
    obtain ⟨hnm1, hnm2⟩ := hnm
    rw [runUpdates_cons] at hout
    have hh3 := tid_hits_one_step s d tid htid hh hnm1
    rcases List.mem_cons.mp hout with hout | hout
    · rw [hout] at ha
      exact tid_not_active s d tid hn hh3 a ha
    · have hv2 := (update_tracks_valid s d hv).1
      have hcfg := update_tracks_config s d
      exact ih (update_tracks s d).1 tid (by omega) hv2 (by omega) hh3 hnm2 out hout a ha

/-- C2. Confirmation delay: a track appears in the list returned by
`update_tracks` only if its hit count is at least `n_init` and its age is
strictly less than `max_age`; and for every input sequence, starting from any
well-formed state in which a track has hit count 1 (a freshly spawned track),
if that identity is never successfully associated again then it never appears
in any returned `active_tracks` list (stated for any `n_init ≥ 2`, which
covers the default `n_init = 3`). -/
theorem confirmation_delay :
    (∀ (s : TrackerState) (dets : List Detection) (a : ActiveTrack),
        a ∈ (update_tracks s dets).2 →
        ∃ t : TrackData, (a.track_id, t) ∈ (update_tracks s dets).1.tracks ∧
          s.n_init ≤ t.hits ∧ t.age < s.max_age) ∧
    (∀ (s : TrackerState) (seq : List (List Detection)) (tid : ℕ) (t : TrackData),
        2 ≤ s.n_init → validIds s → (tid, t) ∈ s.tracks → t.hits = 1 →
        neverMatched s seq tid = true →
        ∀ out ∈ (runUpdates s seq).2, ∀ a ∈ out, a.track_id ≠ tid) := by
  constructor
  · intro s dets a ha
    have h2 : (update_tracks s dets).2 = activeOf (update_tracks s dets).1 := rfl
    rw [h2] at ha
    obtain ⟨p, hp, hage, hhits, he⟩ := (mem_activeOf _ _).mp ha
    have hcm : (update_tracks s dets).1.max_age = s.max_age := (update_tracks_config s dets).1
    have hcn : (update_tracks s dets).1.n_init = s.n_init := (update_tracks_config s dets).2.1
    refine ⟨p.2, ?_, ?_, ?_⟩
    · have hid : a.track_id = p.1 := by rw [he]
      rw [hid]
      exact hp
    · rw [← hcn]
      exact hhits
    · rw [← hcm]
      exact hage
  · intro s seq tid t hn hv hmem hone hnm
    have hh : ∀ b : TrackData, (tid, b) ∈ s.tracks → b.hits = 1 := by
      intro b hb
      have hbe := keyed_eq s.tracks hv.1 hb hmem
      rw [hbe]
      exact hone
    have htid : tid < s.next_id := hv.2 (tid, t) hmem
    exact never_active_run seq s tid hn hv htid hh hnm

/-- C6. Eviction and identity non-reuse: `_remove_old_tracks` keeps exactly
the tracks with `age ≤ max_age`; a track with `age > max_age` disappears from
the track set and its history is discarded; after `update_tracks` no surviving
track has `age > max_age`; `next_id` never decreases; and from a well-formed
state, well-formedness is preserved and every newly appearing identity is at
least the previous `next_id`, hence strictly greater than every identity ever
issued before it. -/
theorem eviction_and_identity_non_reuse :
    (∀ s : TrackerState, (removeOld s).tracks =
        s.tracks.filter (fun p => decide (p.2.age ≤ s.max_age))) ∧
    (∀ (s : TrackerState) (tid : ℕ) (t : TrackData), (trackIds s).Nodup →
        (tid, t) ∈ s.tracks → s.max_age < t.age →
        tid ∉ trackIds (removeOld s) ∧ tid ∉ historyIds (removeOld s)) ∧
    (∀ (s : TrackerState) (dets : List Detection) (q : ℕ × TrackData),
        q ∈ (update_tracks s dets).1.tracks → q.2.age ≤ s.max_age) ∧
    (∀ (s : TrackerState) (dets : List Detection),
        s.next_id ≤ (update_tracks s dets).1.next_id) ∧
    (∀ (s : TrackerState) (dets : List Detection), validIds s →
        validIds (update_tracks s dets).1 ∧
        ∀ q ∈ (update_tracks s dets).1.tracks, q.1 ∉ trackIds s → s.next_id ≤ q.1) := by
  refine ⟨fun s => removeOld_tracks s, ?_, ?_, ?_, ?_⟩
  · intro s tid t hnd hmem hage
    constructor
    · intro hin
      obtain ⟨q, hq, hqe⟩ := List.mem_map.mp hin
      have hq2 := (mem_removeOld s q).mp hq
      have hq3 : (tid, q.2) ∈ s.tracks := by
        rw [← hqe]
        exact hq2.1
      have hqt := keyed_eq s.tracks hnd hq3 hmem
      have hle := hq2.2
      rw [hqt] at hle
      omega
    · intro hin
      obtain ⟨q, hq, hqe⟩ := List.mem_map.mp hin
      have hq2 := List.mem_filter.mp hq
      have hany : s.tracks.any
          (fun q2 => q2.1 == q.1 && decide (s.max_age < q2.2.age)) = false := by
        have := hq2.2
        rwa [Bool.not_eq_true'] at this
      have hforall := List.any_eq_false.mp hany (tid, t) hmem
      apply hforall
      rw [Bool.and_eq_true, beq_iff_eq, decide_eq_true_eq]
      exact ⟨hqe.symm, hage⟩
  · intro s dets q hq
    rw [update_tracks_eq] at hq
    dsimp only at hq
    have hr := (mem_removeOld _ q).mp hq
    have hm : (createNew (updateExisting { s with frame_count := s.frame_count + 1 }
        (dets.map toCur)) (dets.map toCur)).max_age = s.max_age :=
      (update_tracks_config s dets).1
    rw [hm] at hr
    exact hr.2
  · intro s dets
    exact (update_tracks_config s dets).2.2
  · intro s dets hv
    exact update_tracks_valid s dets hv

/-- Concrete tracker fixtures for the witnesses. -/
def demoBBox : BBox := { x1 := 0, y1 := 0, x2 := 10, y2 := 10 }

def demoTrack3 : TrackData :=
  { bbox := demoBBox, confidence := 1, class_name := "car", center := (5, 5), hits := 3, age := 0 }

def demoTrack3Aged : TrackData :=
  { bbox := demoBBox, confidence := 1, class_name := "car", center := (5, 5), hits := 3, age := 1 }

def demoTrackH1 : TrackData :=
  { bbox := demoBBox, confidence := 1, class_name := "car", center := (5, 5), hits := 1, age := 0 }

def demoTrackOld : TrackData :=
  { bbox := demoBBox, confidence := 1, class_name := "car", center := (5, 5), hits := 3, age := 31 }

def confirmedTracker : TrackerState :=
  { initTracker with tracks := [(1, demoTrack3)], next_id := 2 }

def tentativeTracker : TrackerState :=
  { initTracker with tracks := [(1, demoTrackH1)], next_id := 2 }

def staleTracker : TrackerState :=
  { initTracker with
    tracks := [(1, demoTrackOld)], next_id := 2,
    track_history := [(1, demoHist)] }

def demoActive : ActiveTrack :=
  { track_id := 1, bbox := demoBBox, confidence := 1, class_name := "car", center := (5, 5) }

/-- Witness for `confirmation_delay`: a confirmed track (3 hits) is reported
with its data, and a track with one hit that is never matched again is absent
from every output of a two-frame run. -/
theorem confirmation_delay_witness :
    (∃ t : TrackData, (demoActive.track_id, t) ∈ (update_tracks confirmedTracker []).1.tracks ∧
      confirmedTracker.n_init ≤ t.hits ∧ t.age < confirmedTracker.max_age) ∧
    (∀ out ∈ (runUpdates tentativeTracker [[], []]).2, ∀ a ∈ out, a.track_id ≠ 1) :=
  ⟨confirmation_delay.1 confirmedTracker [] demoActive (by decide),
   confirmation_delay.2 tentativeTracker [[], []] 1 demoTrackH1 (by decide)
     ⟨by decide, by decide⟩ (by decide) (by decide) (by decide)⟩

/-- Witness for `eviction_and_identity_non_reuse` at concrete states: a track
aged 31 is evicted together with its history, and the identity bookkeeping
facts hold on a concrete update. -/
theorem eviction_and_identity_non_reuse_witness :
    ((removeOld staleTracker).tracks =
      staleTracker.tracks.filter (fun p => decide (p.2.age ≤ staleTracker.max_age))) ∧
    (1 ∉ trackIds (removeOld staleTracker) ∧ 1 ∉ historyIds (removeOld staleTracker)) ∧
    (((1 : ℕ), demoTrack3Aged).2.age ≤ confirmedTracker.max_age) ∧
    (confirmedTracker.next_id ≤ (update_tracks confirmedTracker []).1.next_id) ∧
    (validIds (update_tracks confirmedTracker []).1 ∧
      ∀ q ∈ (update_tracks confirmedTracker []).1.tracks,
        q.1 ∉ trackIds confirmedTracker → confirmedTracker.next_id ≤ q.1) :=
  ⟨eviction_and_identity_non_reuse.1 staleTracker,
   eviction_and_identity_non_reuse.2.1 staleTracker 1 demoTrackOld (by decide) (by decide)
     (by decide),
   eviction_and_identity_non_reuse.2.2.1 confirmedTracker [] (1, demoTrack3Aged) (by decide),
   eviction_and_identity_non_reuse.2.2.2.1 confirmedTracker [],
   eviction_and_identity_non_reuse.2.2.2.2 confirmedTracker [] ⟨by decide, by decide⟩⟩
